import Mathlib

/-!
Verification development for the Laminate DICOM receiver/proxy.

The Python sources are shallowly embedded: Python `dict`s become
association lists with first-key lookup and in-place update, Python
strings become Lean `String`s (character lists under the hood), wall
clock times become rationals, side effects on shared state become
explicit state passing, and the effectful persistence path is embedded
as a trace of filesystem/lock events.  Each definition is translated
from the corresponding function of the repository; the file then proves
or refutes the frozen claims about the spec.
-/

namespace Laminate

/-! ## Python dict as an association list

Python dicts have unique keys; lookup returns the value bound to the
key, assignment replaces the value in place (keeping insertion order)
or appends a fresh binding at the end.  `dictGet`/`dictSet` implement
exactly that on an association list. -/

def dictGet {α β : Type} [DecidableEq α] : List (α × β) → α → Option β
  | [], _ => none
  | (k, v) :: r, x => if k = x then some v else dictGet r x

def dictSet {α β : Type} [DecidableEq α] : List (α × β) → α → β → List (α × β)
  | [], x, y => [(x, y)]
  | (k, v) :: r, x, y => if k = x then (k, y) :: r else (k, v) :: dictSet r x y

/-- Membership test, `key in d` in Python. -/
def dictMem {α β : Type} [DecidableEq α] (d : List (α × β)) (x : α) : Bool :=
  (dictGet d x).isSome

theorem dictGet_dictSet_self {α β : Type} [DecidableEq α]
    (d : List (α × β)) (k : α) (v : β) : dictGet (dictSet d k v) k = some v := by
  induction d with
  | nil => simp [dictGet, dictSet]
  | cons hd tl ih =>
    by_cases h : hd.1 = k
    · simp [dictSet, dictGet, h]
    · simp [dictSet, dictGet, h, ih]

theorem dictGet_dictSet_ne {α β : Type} [DecidableEq α]
    (d : List (α × β)) (k k2 : α) (v : β) (h : k ≠ k2) :
    dictGet (dictSet d k v) k2 = dictGet d k2 := by
  induction d with
  | nil => simp [dictGet, dictSet, h]
  | cons hd tl ih =>
    by_cases h1 : hd.1 = k
    · subst h1; simp [dictSet, dictGet, h]
    · simp [dictSet, dictGet, h1, ih]

/-! ## Decimal formatting

Embedding of Python `f"sub-{counter:03d}"` for a natural number: the
usual decimal digit string, left padded with zeros to width three.  The
digit accumulator is structurally recursive on a fuel argument so that
concrete instances reduce in the kernel; fuel `n + 1` is always enough
because a number below `10 ^ fuel` has at most `fuel` digits. -/

def decDigitTable : List Char := ['0', '1', '2', '3', '4', '5', '6', '7', '8', '9']

def natDigit (n : Nat) : Char := decDigitTable.getD (n % 10) '0'

def natDecDigitsAux : Nat → Nat → List Char
  | 0, _ => []
  | fuel + 1, n =>
    if n < 10 then [natDigit n]
    else natDecDigitsAux fuel (n / 10) ++ [natDigit (n % 10)]

def natDecDigits (n : Nat) : List Char := natDecDigitsAux (n + 1) n

def pad3 (l : List Char) : List Char := List.replicate (3 - l.length) '0' ++ l

/-- `f"sub-{c:03d}"` from `DicomAnonymizer._get_anonymized_patient_name`. -/
def anonTag (counter : Nat) : String := ⟨'s' :: 'u' :: 'b' :: '-' :: pad3 (natDecDigits counter)⟩

/-- Decidable form of the regular expression `^sub-\d\x7b3,\x7d$`:
the string is "sub-" followed by at least three decimal digits. -/
def matchesSubTag (s : String) : Bool :=
  s.data.take 4 == ['s', 'u', 'b', '-'] &&
    decide (3 ≤ (s.data.drop 4).length) && (s.data.drop 4).all Char.isDigit

theorem natDigit_isDigit (n : Nat) : (natDigit n).isDigit = true := by
  unfold natDigit
  rcases h : decDigitTable[n % 10]? with _ | c
  · simp [List.getD, h]
  · have hc : c ∈ decDigitTable := by
      have := List.getElem?_eq_some_iff.mp h
      rcases this with ⟨hlt, rfl⟩
      exact List.getElem_mem hlt
    have : c.isDigit = true := by
      simp only [decDigitTable, List.mem_cons, List.not_mem_nil, or_false] at hc
      rcases hc with rfl | rfl | rfl | rfl | rfl | rfl | rfl | rfl | rfl | rfl <;> decide
    simp [List.getD, h, this]

theorem natDecDigitsAux_all_digit (fuel n : Nat) :
    (natDecDigitsAux fuel n).all Char.isDigit = true := by
  induction fuel generalizing n with
  | zero => simp [natDecDigitsAux]
  | succ fuel ih =>
    by_cases h : n < 10
    · simp [natDecDigitsAux, h, natDigit_isDigit]
    · simp [natDecDigitsAux, h, List.all_append, ih, natDigit_isDigit]

theorem natDecDigitsAux_ne_nil (fuel n : Nat) :
    natDecDigitsAux (fuel + 1) n ≠ [] := by
  by_cases h : n < 10 <;> simp [natDecDigitsAux, h]

/-- Every tag the anonymiser can mint matches `^sub-\d\x7b3,\x7d$`. -/
theorem anonTag_matches (c : Nat) : matchesSubTag (anonTag c) = true := by
  have hne : natDecDigits c ≠ [] := natDecDigitsAux_ne_nil c c
  have hdig : (natDecDigits c).all Char.isDigit = true := natDecDigitsAux_all_digit _ _
  have hlen : 3 ≤ (pad3 (natDecDigits c)).length := by
    simp only [pad3, List.length_append, List.length_replicate]
    omega
  have hpad : (pad3 (natDecDigits c)).all Char.isDigit = true := by
    simp only [pad3, List.all_append, hdig, Bool.and_true, List.all_eq_true]
    intro c hc
    have := List.eq_of_mem_replicate hc
    subst this; decide
  simp [matchesSubTag, anonTag, List.take, List.drop, hlen, hpad]

/-! ## Identity store (`dicom_receiver/core/crypto.py`, `DicomAnonymizer`)

A pydicom `Dataset` is embedded as an association list from attribute
keyword to string value; `hasattr` is key presence, `getattr` is lookup,
`setattr` is `dictSet`, and the Python truthiness test
`getattr(dataset, tag)` on a string value is the non-emptiness test. -/

abbrev Dataset := List (String × String)

/-- `DEFAULT_PII_TAGS` from `dicom_receiver/config.py`. -/
def PII_TAGS : List String :=
  ["PatientName", "PatientID", "PatientBirthDate", "PatientAddress",
   "PatientTelephoneNumbers", "OtherPatientIDs", "OtherPatientNames"]

structure AnonymizerState where
  patientNameMap : List (String × String)
  patientInfoMap : List (String × List (String × String))
  patientCounter : Nat
deriving DecidableEq

/-- Digit-string to number, for Python `int` applied to the suffix of a tag. -/
def digitsToNat (l : List Char) : Nat := l.foldl (fun a c => a * 10 + (c.toNat - 48)) 0

/-- Embedding of `int(s)` as used on tag suffixes: succeeds on a non-empty
all-digit string, fails (raises `ValueError`, which the source skips)
otherwise.  Python `int` additionally tolerates surrounding whitespace and a
sign, which never occur in tags this system writes. -/
def pyParseInt (s : String) : Option Nat :=
  if s.data ≠ [] ∧ s.data.all Char.isDigit then some (digitsToNat s.data) else none

/-- `DicomAnonymizer._get_next_patient_counter`: scan the name map values,
parse the numeric suffix of every `sub-...` tag, return max + 1. -/
def getNextPatientCounter (nameMap : List (String × String)) : Nat :=
  (nameMap.foldl
    (fun maxCounter kv =>
      if (kv.2.data.take 4 == ['s', 'u', 'b', '-']) then
        match ((kv.2.split (fun c => c = '-')).drop 1).head? with
        | some part =>
          match pyParseInt part with
          | some counter => max maxCounter counter
          | none => maxCounter
        | none => maxCounter
      else maxCounter) 0) + 1

/-- The in-memory state of a `DicomAnonymizer` constructed over an absent or
empty mapping file. -/
def initAnonymizerState : AnonymizerState :=
  { patientNameMap := [], patientInfoMap := [], patientCounter := getNextPatientCounter [] }

/-- `DicomAnonymizer._get_anonymized_patient_name`: return the mapped tag, or
mint `f"sub-{counter:03d}"`, record it and bump the counter. -/
def getAnonymizedPatientName (st : AnonymizerState) (originalName : String) :
    String × AnonymizerState :=
  match dictGet st.patientNameMap originalName with
  | some t => (t, st)
  | none =>
    let anonName := anonTag st.patientCounter
    (anonName,
      { st with
          patientNameMap := dictSet st.patientNameMap originalName anonName,
          patientCounter := st.patientCounter + 1 })

/-- One iteration of the `for tag in PII_TAGS` loop of
`DicomAnonymizer.anonymize_dataset`: skip tags that are absent or empty;
record the original value under the study (first write wins); substitute the
tag's value according to the policy (PatientName gets a sequential tag,
PatientID is kept, everything else becomes "ANON"). -/
def anonymizeTagStep (studyUid : String)
    (acc : Dataset × AnonymizerState × List (String × String)) (tag : String) :
    Dataset × AnonymizerState × List (String × String) :=
  let ds := acc.1
  let st := acc.2.1
  let orig := acc.2.2
  match dictGet ds tag with
  | none => acc
  | some value =>
    if value = "" then acc
    else
      let studyInfo := (dictGet st.patientInfoMap studyUid).getD []
      let st1 :=
        if dictMem studyInfo tag then st
        else { st with patientInfoMap := dictSet st.patientInfoMap studyUid (dictSet studyInfo tag value) }
      let orig1 := dictSet orig tag value
      let anonPair :=
        if tag = "PatientName" then getAnonymizedPatientName st1 value
        else if tag = "PatientID" then (value, st1)
        else ("ANON", st1)
      (dictSet ds tag anonPair.1, anonPair.2, orig1)

/-- `DicomAnonymizer.anonymize_dataset` (the on-disk save is modelled
separately as an event trace).  `none` embeds the `AttributeError` raised when
the dataset has no StudyInstanceUID. -/
def anonymizeDataset (st : AnonymizerState) (ds : Dataset) :
    Option (Dataset × AnonymizerState × List (String × String)) :=
  match dictGet ds "StudyInstanceUID" with
  | none => none
  | some studyUid =>
    let st0 :=
      if dictMem st.patientInfoMap studyUid then st
      else { st with patientInfoMap := dictSet st.patientInfoMap studyUid [] }
    some (PII_TAGS.foldl (anonymizeTagStep studyUid) (ds, st0, []))

/-- `DicomAnonymizer.restore_dataset`: write every recorded original back,
but only into attributes the dataset currently has; return whether an
identity record existed for the study. -/
def restoreDataset (st : AnonymizerState) (ds : Dataset) : Option (Dataset × Bool) :=
  match dictGet ds "StudyInstanceUID" with
  | none => none
  | some studyUid =>
    match dictGet st.patientInfoMap studyUid with
    | none => some (ds, false)
    | some info =>
      some (info.foldl (fun d tv => if dictMem d tv.1 then dictSet d tv.1 tv.2 else d) ds, true)

/-- A sequence of `anonymise` calls, tracking only the store's state. -/
def anonymizeMany (st : AnonymizerState) (l : List Dataset) : AnonymizerState :=
  l.foldl
    (fun s d =>
      match anonymizeDataset s d with
      | some r => r.2.1
      | none => s) st

/-! ## Lemmas about one anonymisation step -/

theorem anonymizeTagStep_nameMap_of_ne (S tag : String)
    (acc : Dataset × AnonymizerState × List (String × String)) (h : tag ≠ "PatientName") :
    (anonymizeTagStep S acc tag).2.1.patientNameMap = acc.2.1.patientNameMap ∧
      (anonymizeTagStep S acc tag).2.1.patientCounter = acc.2.1.patientCounter := by
  unfold anonymizeTagStep
  rcases hv : dictGet acc.1 tag with _ | v
  · simp [hv]
  · by_cases he : v = ""
    · simp [hv, he]
    · by_cases hid : tag = "PatientID"
      · subst hid
        by_cases hm : dictMem ((dictGet acc.2.1.patientInfoMap S).getD []) "PatientID" = true <;>
          simp [hv, he, hm]
      · by_cases hm : dictMem ((dictGet acc.2.1.patientInfoMap S).getD []) tag = true <;>
          simp [hv, he, hm, hid, h]

theorem anonymizeTagStep_get_of_ne (S tag k : String)
    (acc : Dataset × AnonymizerState × List (String × String)) (h : k ≠ tag) :
    dictGet (anonymizeTagStep S acc tag).1 k = dictGet acc.1 k := by
  unfold anonymizeTagStep
  rcases hv : dictGet acc.1 tag with _ | v
  · simp [hv]
  · by_cases he : v = ""
    · simp [hv, he]
    · simp only [hv, he, if_false]
      exact dictGet_dictSet_ne _ _ _ _ (fun hh => h hh.symm)

theorem anonymizeTagStep_counter_mono (S tag : String)
    (acc : Dataset × AnonymizerState × List (String × String)) :
    acc.2.1.patientCounter ≤ (anonymizeTagStep S acc tag).2.1.patientCounter := by
  unfold anonymizeTagStep
  rcases hv : dictGet acc.1 tag with _ | v
  · simp [hv]
  · by_cases he : v = ""
    · simp [hv, he]
    · by_cases hn : tag = "PatientName"
      · subst hn
        by_cases hm : dictMem ((dictGet acc.2.1.patientInfoMap S).getD []) "PatientName" = true <;>
          · simp only [hv, he, if_false, if_true, hm]
            unfold getAnonymizedPatientName
            rcases hx : dictGet acc.2.1.patientNameMap v with _ | t <;> simp [hx]
      · by_cases hid : tag = "PatientID"
        · subst hid
          by_cases hm : dictMem ((dictGet acc.2.1.patientInfoMap S).getD []) "PatientID" = true <;>
            simp [hv, he, hm]
        · by_cases hm : dictMem ((dictGet acc.2.1.patientInfoMap S).getD []) tag = true <;>
            simp [hv, he, hm, hid, hn]

theorem anonymizeTagStep_nameMap_entry (S tag X t : String)
    (acc : Dataset × AnonymizerState × List (String × String))
    (h : dictGet acc.2.1.patientNameMap X = some t) :
    dictGet (anonymizeTagStep S acc tag).2.1.patientNameMap X = some t := by
  by_cases hn : tag = "PatientName"
  · subst hn
    unfold anonymizeTagStep
    rcases hv : dictGet acc.1 "PatientName" with _ | v
    · simpa [hv] using h
    · by_cases he : v = ""
      · simpa [hv, he] using h
      · by_cases hm : dictMem ((dictGet acc.2.1.patientInfoMap S).getD []) "PatientName" = true <;>
          · simp only [hv, he, if_false, if_true, hm]
            unfold getAnonymizedPatientName
            rcases hx : dictGet acc.2.1.patientNameMap v with _ | u
            · have hvx : v ≠ X := fun hh => by rw [hh, h] at hx; cases hx
              simpa [hx, dictGet_dictSet_ne _ _ _ _ hvx] using h
            · simpa [hx] using h
  · rw [(anonymizeTagStep_nameMap_of_ne S tag acc hn).1]
    exact h

/-! ## Lemmas about the fold over the PII tag list -/

theorem anonymizeFold_nameMap_of_nmem (S : String) (tags : List String)
    (acc : Dataset × AnonymizerState × List (String × String))
    (h : "PatientName" ∉ tags) :
    (tags.foldl (anonymizeTagStep S) acc).2.1.patientNameMap = acc.2.1.patientNameMap ∧
      (tags.foldl (anonymizeTagStep S) acc).2.1.patientCounter = acc.2.1.patientCounter ∧
      dictGet (tags.foldl (anonymizeTagStep S) acc).1 "PatientName" = dictGet acc.1 "PatientName" := by
  induction tags generalizing acc with
  | nil => simp
  | cons hd tl ih =>
    have hne : hd ≠ "PatientName" := fun hh => h (by simp [hh])
    have htl : "PatientName" ∉ tl := fun hh => h (List.mem_cons_of_mem _ hh)
    have step1 := anonymizeTagStep_nameMap_of_ne S hd acc hne
    have step2 := anonymizeTagStep_get_of_ne S hd "PatientName" acc (fun hh => hne hh.symm)
    have := ih (anonymizeTagStep S acc hd) htl
    refine ⟨?_, ?_, ?_⟩
    · simp only [List.foldl_cons]; rw [this.1, step1.1]
    · simp only [List.foldl_cons]; rw [this.2.1, step1.2]
    · simp only [List.foldl_cons]; rw [this.2.2, step2]

theorem anonymizeFold_counter_mono (S : String) (tags : List String)
    (acc : Dataset × AnonymizerState × List (String × String)) :
    acc.2.1.patientCounter ≤ (tags.foldl (anonymizeTagStep S) acc).2.1.patientCounter := by
  induction tags generalizing acc with
  | nil => simp
  | cons hd tl ih =>
    simp only [List.foldl_cons]
    exact le_trans (anonymizeTagStep_counter_mono S hd acc) (ih _)

theorem anonymizeFold_nameMap_entry (S X t : String) (tags : List String)
    (acc : Dataset × AnonymizerState × List (String × String))
    (h : dictGet acc.2.1.patientNameMap X = some t) :
    dictGet (tags.foldl (anonymizeTagStep S) acc).2.1.patientNameMap X = some t := by
  induction tags generalizing acc with
  | nil => simpa
  | cons hd tl ih =>
    simp only [List.foldl_cons]
    exact ih _ (anonymizeTagStep_nameMap_entry S hd X t acc h)

/-! ## Call-level lemmas for `anonymize_dataset` -/

theorem anonymizeTagStep_patientName_fresh (S X : String)
    (acc : Dataset × AnonymizerState × List (String × String))
    (h1 : dictGet acc.1 "PatientName" = some X) (h2 : X ≠ "")
    (h3 : dictGet acc.2.1.patientNameMap X = none) :
    dictGet (anonymizeTagStep S acc "PatientName").1 "PatientName"
        = some (anonTag acc.2.1.patientCounter) ∧
      (anonymizeTagStep S acc "PatientName").2.1.patientNameMap
        = dictSet acc.2.1.patientNameMap X (anonTag acc.2.1.patientCounter) ∧
      (anonymizeTagStep S acc "PatientName").2.1.patientCounter
        = acc.2.1.patientCounter + 1 := by
  unfold anonymizeTagStep
  by_cases hm : dictMem ((dictGet acc.2.1.patientInfoMap S).getD []) "PatientName" = true <;>
    simp [h1, h2, hm, getAnonymizedPatientName, h3, dictGet_dictSet_self]

theorem anonymizeTagStep_patientName_seen (S X t : String)
    (acc : Dataset × AnonymizerState × List (String × String))
    (h1 : dictGet acc.1 "PatientName" = some X) (h2 : X ≠ "")
    (h3 : dictGet acc.2.1.patientNameMap X = some t) :
    dictGet (anonymizeTagStep S acc "PatientName").1 "PatientName" = some t ∧
      (anonymizeTagStep S acc "PatientName").2.1.patientNameMap = acc.2.1.patientNameMap ∧
      (anonymizeTagStep S acc "PatientName").2.1.patientCounter = acc.2.1.patientCounter := by
  unfold anonymizeTagStep
  by_cases hm : dictMem ((dictGet acc.2.1.patientInfoMap S).getD []) "PatientName" = true <;>
    simp [h1, h2, hm, getAnonymizedPatientName, h3, dictGet_dictSet_self]

theorem anonymizeDataset_fresh_name (st : AnonymizerState) (ds : Dataset) (X S : String)
    (hS : dictGet ds "StudyInstanceUID" = some S)
    (hX : dictGet ds "PatientName" = some X) (hne : X ≠ "")
    (hfresh : dictGet st.patientNameMap X = none) :
    ∃ r : Dataset × AnonymizerState × List (String × String),
      anonymizeDataset st ds = some r ∧
        dictGet r.2.1.patientNameMap X = some (anonTag st.patientCounter) ∧
        dictGet r.1 "PatientName" = some (anonTag st.patientCounter) ∧
        r.2.1.patientCounter = st.patientCounter + 1 := by
  unfold anonymizeDataset
  rw [hS]
  refine ⟨_, rfl, ?_⟩
  set st0 := if dictMem st.patientInfoMap S then st
    else { st with patientInfoMap := dictSet st.patientInfoMap S [] } with hst0
  have h0 : st0.patientNameMap = st.patientNameMap ∧ st0.patientCounter = st.patientCounter := by
    rw [hst0]; by_cases hmem : dictMem st.patientInfoMap S <;> simp [hmem]
  have hfold : PII_TAGS.foldl (anonymizeTagStep S) (ds, st0, []) =
      List.foldl (anonymizeTagStep S) (anonymizeTagStep S (ds, st0, []) "PatientName")
        ["PatientID", "PatientBirthDate", "PatientAddress",
         "PatientTelephoneNumbers", "OtherPatientIDs", "OtherPatientNames"] := by
    simp [PII_TAGS]
  have hstep := anonymizeTagStep_patientName_fresh S X (ds, st0, []) hX hne (by rw [h0.1]; exact hfresh)
  have hrest := anonymizeFold_nameMap_of_nmem S
    ["PatientID", "PatientBirthDate", "PatientAddress",
     "PatientTelephoneNumbers", "OtherPatientIDs", "OtherPatientNames"]
    (anonymizeTagStep S (ds, st0, []) "PatientName") (by decide)
  rw [hfold]
  refine ⟨?_, ?_, ?_⟩
  · rw [hrest.1, hstep.2.1, h0.1, h0.2]
    exact dictGet_dictSet_self _ _ _
  · rw [hrest.2.2, hstep.1, h0.2]
  · rw [hrest.2.1, hstep.2.2, h0.2]

theorem anonymizeDataset_seen_name (st : AnonymizerState) (ds : Dataset) (X S t : String)
    (hS : dictGet ds "StudyInstanceUID" = some S)
    (hX : dictGet ds "PatientName" = some X) (hne : X ≠ "")
    (hseen : dictGet st.patientNameMap X = some t) :
    ∃ r : Dataset × AnonymizerState × List (String × String),
      anonymizeDataset st ds = some r ∧
        dictGet r.1 "PatientName" = some t ∧
        dictGet r.2.1.patientNameMap X = some t := by
  unfold anonymizeDataset
  rw [hS]
  refine ⟨_, rfl, ?_⟩
  set st0 := if dictMem st.patientInfoMap S then st
    else { st with patientInfoMap := dictSet st.patientInfoMap S [] } with hst0
  have h0 : st0.patientNameMap = st.patientNameMap := by
    rw [hst0]; by_cases hmem : dictMem st.patientInfoMap S <;> simp [hmem]
  have hfold : PII_TAGS.foldl (anonymizeTagStep S) (ds, st0, []) =
      List.foldl (anonymizeTagStep S) (anonymizeTagStep S (ds, st0, []) "PatientName")
        ["PatientID", "PatientBirthDate", "PatientAddress",
         "PatientTelephoneNumbers", "OtherPatientIDs", "OtherPatientNames"] := by
    simp [PII_TAGS]
  have hstep := anonymizeTagStep_patientName_seen S X t (ds, st0, []) hX hne (by rw [h0]; exact hseen)
  have hrest := anonymizeFold_nameMap_of_nmem S
    ["PatientID", "PatientBirthDate", "PatientAddress",
     "PatientTelephoneNumbers", "OtherPatientIDs", "OtherPatientNames"]
    (anonymizeTagStep S (ds, st0, []) "PatientName") (by decide)
  rw [hfold]
  refine ⟨?_, ?_⟩
  · rw [hrest.2.2, hstep.1]
  · rw [hrest.1, hstep.2.1, h0]; exact hseen

theorem anonymizeDataset_nameMap_entry (st : AnonymizerState) (ds : Dataset) (X t : String)
    (h : dictGet st.patientNameMap X = some t)
    (r : Dataset × AnonymizerState × List (String × String))
    (hr : anonymizeDataset st ds = some r) :
    dictGet r.2.1.patientNameMap X = some t := by
  unfold anonymizeDataset at hr
  rcases hS : dictGet ds "StudyInstanceUID" with _ | S
  · rw [hS] at hr; cases hr
  · rw [hS] at hr
    simp only [Option.some.injEq] at hr
    have := anonymizeFold_nameMap_entry S X t PII_TAGS
      (ds,
        if dictMem st.patientInfoMap S then st
        else { st with patientInfoMap := dictSet st.patientInfoMap S [] }, [])
      (by by_cases hmem : dictMem st.patientInfoMap S <;> simpa [hmem] using h)
    rw [hr] at this
    exact this

theorem anonymizeMany_nameMap_entry (st : AnonymizerState) (l : List Dataset) (X t : String)
    (h : dictGet st.patientNameMap X = some t) :
    dictGet (anonymizeMany st l).patientNameMap X = some t := by
  induction l generalizing st with
  | nil => simpa [anonymizeMany]
  | cons hd tl ih =>
    simp only [anonymizeMany, List.foldl_cons]
    rcases hr : anonymizeDataset st hd with _ | r
    · exact ih st h
    · exact ih r.2.1 (anonymizeDataset_nameMap_entry st hd X t h r hr)

theorem anonymizeDataset_counter_mono (st : AnonymizerState) (ds : Dataset)
    (r : Dataset × AnonymizerState × List (String × String))
    (hr : anonymizeDataset st ds = some r) :
    st.patientCounter ≤ r.2.1.patientCounter := by
  unfold anonymizeDataset at hr
  rcases hS : dictGet ds "StudyInstanceUID" with _ | S
  · rw [hS] at hr; cases hr
  · rw [hS] at hr
    simp only [Option.some.injEq] at hr
    have := anonymizeFold_counter_mono S PII_TAGS
      (ds,
        if dictMem st.patientInfoMap S then st
        else { st with patientInfoMap := dictSet st.patientInfoMap S [] }, [])
    rw [hr] at this
    by_cases hmem : dictMem st.patientInfoMap S <;> simpa [hmem] using this

theorem anonymizeMany_counter_mono (st : AnonymizerState) (l : List Dataset) :
    st.patientCounter ≤ (anonymizeMany st l).patientCounter := by
  induction l generalizing st with
  | nil => simp [anonymizeMany]
  | cons hd tl ih =>
    simp only [anonymizeMany, List.foldl_cons]
    rcases hr : anonymizeDataset st hd with _ | r
    · exact ih st
    · exact le_trans (anonymizeDataset_counter_mono st hd r hr) (ih r.2.1)

/-- C1: for every PatientName string X, the first anonymise call on a dataset
carrying X assigns X the tag made of "sub-" and the zero-padded current
counter and increments the counter; every later anonymise call on any dataset
carrying the same X yields the same tag; every assigned tag matches
`^sub-\d\x7b3,\x7d$`; and the counter never decreases across any sequence of
anonymise calls. -/
theorem C1_anonymise_name_tagging :
    (∀ (st : AnonymizerState) (ds : Dataset) (X S : String),
        dictGet ds "StudyInstanceUID" = some S →
        dictGet ds "PatientName" = some X → X ≠ "" →
        dictGet st.patientNameMap X = none →
        ∃ r : Dataset × AnonymizerState × List (String × String),
          anonymizeDataset st ds = some r ∧
            dictGet r.2.1.patientNameMap X = some (anonTag st.patientCounter) ∧
            dictGet r.1 "PatientName" = some (anonTag st.patientCounter) ∧
            r.2.1.patientCounter = st.patientCounter + 1) ∧
    (∀ (st : AnonymizerState) (X t : String),
        dictGet st.patientNameMap X = some t →
        ∀ (later : List Dataset) (ds : Dataset) (S : String),
          dictGet ds "StudyInstanceUID" = some S →
          dictGet ds "PatientName" = some X → X ≠ "" →
          ∃ r : Dataset × AnonymizerState × List (String × String),
            anonymizeDataset (anonymizeMany st later) ds = some r ∧
              dictGet r.1 "PatientName" = some t ∧
              dictGet r.2.1.patientNameMap X = some t) ∧
    (∀ c : Nat, matchesSubTag (anonTag c) = true) ∧
    (∀ (st : AnonymizerState) (l : List Dataset),
        st.patientCounter ≤ (anonymizeMany st l).patientCounter) := by
  refine ⟨anonymizeDataset_fresh_name, ?_, anonTag_matches, anonymizeMany_counter_mono⟩
  intro st X t h later ds S h1 h2 h3
  exact anonymizeDataset_seen_name (anonymizeMany st later) ds X S t h1 h2 h3
    (anonymizeMany_nameMap_entry st later X t h)

/-- Witness for C1: a concrete first call on an empty identity store. -/
theorem C1_anonymise_name_tagging_witness :
    (dictGet ([("StudyInstanceUID", "1.2"), ("PatientName", "DOE^JOHN")] : Dataset)
        "StudyInstanceUID" = some "1.2") ∧
    (dictGet initAnonymizerState.patientNameMap "DOE^JOHN" = none) ∧
    (∃ r : Dataset × AnonymizerState × List (String × String),
      anonymizeDataset initAnonymizerState
          [("StudyInstanceUID", "1.2"), ("PatientName", "DOE^JOHN")] = some r ∧
        dictGet r.2.1.patientNameMap "DOE^JOHN"
            = some (anonTag initAnonymizerState.patientCounter) ∧
        dictGet r.1 "PatientName" = some (anonTag initAnonymizerState.patientCounter) ∧
        r.2.1.patientCounter = initAnonymizerState.patientCounter + 1) ∧
    matchesSubTag (anonTag 7) = true :=
  ⟨by decide, by decide,
    C1_anonymise_name_tagging.1 initAnonymizerState
      [("StudyInstanceUID", "1.2"), ("PatientName", "DOE^JOHN")] "DOE^JOHN" "1.2"
      (by decide) (by decide) (by decide) (by decide),
    C1_anonymise_name_tagging.2.2.1 7⟩

/-! ## Restore-side fold lemmas -/

theorem dictGet_eq_none_iff {α β : Type} [DecidableEq α] (d : List (α × β)) (k : α) :
    dictGet d k = none ↔ k ∉ d.map Prod.fst := by
  induction d with
  | nil => simp [dictGet]
  | cons hd tl ih =>
    by_cases h : hd.1 = k
    · subst h; simp [dictGet]
    · have h2 : ¬ k = hd.1 := fun hh => h hh.symm
      simp [dictGet, h, ih, h2]

/-- The body of the `restore_dataset` loop. -/
def restoreFold (info : List (String × String)) (d : Dataset) : Dataset :=
  info.foldl (fun d tv => if dictMem d tv.1 then dictSet d tv.1 tv.2 else d) d

theorem restoreDataset_eq (st : AnonymizerState) (ds : Dataset) (S : String)
    (info : List (String × String))
    (hS : dictGet ds "StudyInstanceUID" = some S)
    (hinfo : dictGet st.patientInfoMap S = some info) :
    restoreDataset st ds = some (restoreFold info ds, true) := by
  unfold restoreDataset
  rw [hS]
  simp only [hinfo, restoreFold]

theorem restoreFold_absent (info : List (String × String)) (d : Dataset) (k : String)
    (h : dictGet d k = none) : dictGet (restoreFold info d) k = none := by
  induction info generalizing d with
  | nil => simpa [restoreFold]
  | cons hd tl ih =>
    simp only [restoreFold, List.foldl_cons] at *
    by_cases hm : dictMem d hd.1 = true
    · have hne : hd.1 ≠ k := by
        intro hh
        rw [hh] at hm
        simp [dictMem, h] at hm
      simpa [hm] using ih (dictSet d hd.1 hd.2) (by rw [dictGet_dictSet_ne _ _ _ _ hne]; exact h)
    · simpa [hm] using ih d h

theorem restoreFold_not_key (info : List (String × String)) (d : Dataset) (k : String)
    (h : k ∉ info.map Prod.fst) : dictGet (restoreFold info d) k = dictGet d k := by
  induction info generalizing d with
  | nil => simp [restoreFold]
  | cons hd tl ih =>
    have hne : hd.1 ≠ k := by intro hh; exact h (by simp [hh])
    have htl : k ∉ tl.map Prod.fst := by intro hh; exact h (by simp [hh])
    simp only [restoreFold, List.foldl_cons] at *
    by_cases hm : dictMem d hd.1 = true
    · simpa [hm] using (ih (dictSet d hd.1 hd.2) htl).trans (dictGet_dictSet_ne _ _ _ _ hne)
    · simpa [hm] using ih d htl

theorem restoreFold_write (info : List (String × String)) (d : Dataset) (k v : String)
    (hnodup : (info.map Prod.fst).Nodup)
    (hrec : dictGet info k = some v) (hpres : (dictGet d k).isSome = true) :
    dictGet (restoreFold info d) k = some v := by
  induction info generalizing d with
  | nil => simp [dictGet] at hrec
  | cons hd tl ih =>
    simp only [List.map_cons, List.nodup_cons] at hnodup
    by_cases hk : hd.1 = k
    · subst hk
      have hrec2 : hd.2 = v := by simpa [dictGet] using hrec
      subst hrec2
      have hm : dictMem d hd.1 = true := by simpa [dictMem] using hpres
      simp only [restoreFold, List.foldl_cons, hm, if_pos]
      have : dictGet (dictSet d hd.1 hd.2) hd.1 = some hd.2 := dictGet_dictSet_self _ _ _
      calc dictGet (restoreFold tl (dictSet d hd.1 hd.2)) hd.1
          = dictGet (dictSet d hd.1 hd.2) hd.1 := restoreFold_not_key _ _ _ hnodup.1
        _ = some hd.2 := this
    · have hrec2 : dictGet tl k = some v := by simpa [dictGet, hk] using hrec
      simp only [restoreFold, List.foldl_cons]
      by_cases hm : dictMem d hd.1 = true
      · simp only [hm, if_pos]
        exact ih (dictSet d hd.1 hd.2) hnodup.2 hrec2
          (by rw [dictGet_dictSet_ne _ _ _ _ hk]; exact hpres)
      · simp only [hm, if_neg, Bool.false_eq_true, if_false]
        exact ih d hnodup.2 hrec2 hpres

/-- C10: whenever an identity record exists for the dataset's study,
`restore_dataset` returns true no matter what it wrote; recorded fields whose
attribute is absent from the dataset are skipped, never re-added; and on a
dataset carrying none of the recorded attributes the call succeeds while
leaving the dataset unchanged (shown on a concrete instance). -/
theorem C10_restore_true_and_skips_absent :
    (∀ (st : AnonymizerState) (ds : Dataset) (S : String) (info : List (String × String)),
        dictGet ds "StudyInstanceUID" = some S →
        dictGet st.patientInfoMap S = some info →
        ∃ ds2 : Dataset, restoreDataset st ds = some (ds2, true) ∧
          ∀ k : String, dictGet ds k = none → dictGet ds2 k = none) ∧
    restoreDataset
        { patientNameMap := [("DOE^JOHN", "sub-001")],
          patientInfoMap := [("1.2", [("PatientName", "DOE^JOHN")])],
          patientCounter := 2 }
        [("StudyInstanceUID", "1.2")]
      = some ([("StudyInstanceUID", "1.2")], true) := by
  constructor
  · intro st ds S info hS hinfo
    exact ⟨restoreFold info ds, restoreDataset_eq st ds S info hS hinfo,
      fun k hk => restoreFold_absent info ds k hk⟩
  · decide

/-- Witness for C10: the universally quantified part applied to the same
concrete store and dataset. -/
theorem C10_restore_true_and_skips_absent_witness :
    ∃ ds2 : Dataset,
      restoreDataset
          { patientNameMap := [("DOE^JOHN", "sub-001")],
            patientInfoMap := [("1.2", [("PatientName", "DOE^JOHN")])],
            patientCounter := 2 }
          [("StudyInstanceUID", "1.2")] = some (ds2, true) ∧
        ∀ k : String, dictGet ([("StudyInstanceUID", "1.2")] : Dataset) k = none →
          dictGet ds2 k = none :=
  C10_restore_true_and_skips_absent.1
    { patientNameMap := [("DOE^JOHN", "sub-001")],
      patientInfoMap := [("1.2", [("PatientName", "DOE^JOHN")])],
      patientCounter := 2 }
    [("StudyInstanceUID", "1.2")] "1.2" [("PatientName", "DOE^JOHN")]
    (by decide) (by decide)

/-! ## Recording invariants for the round-trip claim -/

theorem getAnonymizedPatientName_infoMap (st : AnonymizerState) (v : String) :
    (getAnonymizedPatientName st v).2.patientInfoMap = st.patientInfoMap := by
  unfold getAnonymizedPatientName
  rcases h : dictGet st.patientNameMap v with _ | t <;> simp [h]

theorem dictSet_map_fst_of_not_mem {α β : Type} [DecidableEq α]
    (d : List (α × β)) (k : α) (v : β) (h : dictGet d k = none) :
    (dictSet d k v).map Prod.fst = d.map Prod.fst ++ [k] := by
  induction d with
  | nil => simp [dictSet]
  | cons hd tl ih =>
    have h1 : ¬ hd.1 = k := by
      intro hh; rw [dictGet, if_pos hh] at h; cases h
    have h2 : dictGet tl k = none := by rw [dictGet, if_neg h1] at h; exact h
    simp [dictSet, h1, ih h2]

theorem dictSet_keys_nodup_of_none {α β : Type} [DecidableEq α]
    (d : List (α × β)) (k : α) (v : β) (h : dictGet d k = none)
    (hn : (d.map Prod.fst).Nodup) : ((dictSet d k v).map Prod.fst).Nodup := by
  rw [dictSet_map_fst_of_not_mem d k v h]
  have hk : k ∉ d.map Prod.fst := (dictGet_eq_none_iff d k).mp h
  simp [List.nodup_append, hn, hk]

/-- What one iteration of the PII loop does, given the study's current
record `info`: skip absent or empty attributes; otherwise substitute the
attribute with some value and record the original unless already recorded. -/
theorem anonymizeTagStep_char (S t : String) (d : Dataset) (stA : AnonymizerState)
    (o info : List (String × String))
    (hinfo : dictGet stA.patientInfoMap S = some info) :
    ∃ info1,
      dictGet (anonymizeTagStep S (d, stA, o) t).2.1.patientInfoMap S = some info1 ∧
      ((dictGet d t = none ∧ (anonymizeTagStep S (d, stA, o) t).1 = d ∧ info1 = info) ∨
       (dictGet d t = some "" ∧ (anonymizeTagStep S (d, stA, o) t).1 = d ∧ info1 = info) ∨
       (∃ v, dictGet d t = some v ∧ v ≠ "" ∧
         (dictGet (anonymizeTagStep S (d, stA, o) t).1 t).isSome = true ∧
         info1 = (if dictMem info t then info else dictSet info t v))) := by
  have hstudy : (dictGet stA.patientInfoMap S).getD [] = info := by rw [hinfo]; rfl
  unfold anonymizeTagStep
  rcases hv : dictGet d t with _ | v
  · exact ⟨info, by simp [hv, hinfo], Or.inl ⟨by simp [hv], by simp [hv], rfl⟩⟩
  · by_cases he : v = ""
    · subst he
      exact ⟨info, by simp [hv, hinfo], Or.inr (Or.inl ⟨by simp [hv], by simp [hv], rfl⟩)⟩
    · refine ⟨if dictMem info t then info else dictSet info t v, ?_,
        Or.inr (Or.inr ⟨v, by simp [hv], he, ?_, rfl⟩)⟩
      · by_cases hm : dictMem info t = true
        · by_cases hn : t = "PatientName"
          · subst hn
            simp [hv, he, hstudy, hm, getAnonymizedPatientName_infoMap, hinfo]
          · by_cases hid : t = "PatientID"
            · subst hid
              simp [hv, he, hstudy, hm, hinfo]
            · simp [hv, he, hstudy, hm, hn, hid, hinfo]
        · by_cases hn : t = "PatientName"
          · subst hn
            simp [hv, he, hstudy, hm, getAnonymizedPatientName_infoMap, dictGet_dictSet_self]
          · by_cases hid : t = "PatientID"
            · subst hid
              simp [hv, he, hstudy, hm, dictGet_dictSet_self]
            · simp [hv, he, hstudy, hm, hn, hid, dictGet_dictSet_self]
      · by_cases hn : t = "PatientName"
        · subst hn
          simp [hv, he, hstudy, dictGet_dictSet_self]
        · by_cases hid : t = "PatientID"
          · subst hid
            simp [hv, he, hstudy, dictGet_dictSet_self]
          · simp [hv, he, hstudy, hn, hid, dictGet_dictSet_self]

/-- Invariant of the PII loop: recorded originals are exactly the values the
dataset carried when each tag was first processed, substituted attributes
stay present, untouched attributes keep their values, and the study record
keeps duplicate-free keys. -/
theorem anonymizeFold_record_spec (S : String) :
    ∀ (ts : List String), ts.Nodup →
    ∀ (d : Dataset) (stA : AnonymizerState) (o info : List (String × String)),
      dictGet stA.patientInfoMap S = some info →
      ∃ info2,
        dictGet (List.foldl (anonymizeTagStep S) (d, stA, o) ts).2.1.patientInfoMap S
            = some info2 ∧
        (∀ k, k ∉ ts →
            dictGet info2 k = dictGet info k ∧
            dictGet (List.foldl (anonymizeTagStep S) (d, stA, o) ts).1 k = dictGet d k) ∧
        (∀ k v, k ∈ ts → dictGet info k = none → dictGet d k = some v → v ≠ "" →
            dictGet info2 k = some v ∧
            (dictGet (List.foldl (anonymizeTagStep S) (d, stA, o) ts).1 k).isSome = true) ∧
        (∀ k, k ∈ ts → dictGet d k = none →
            dictGet (List.foldl (anonymizeTagStep S) (d, stA, o) ts).1 k = none) ∧
        (∀ k, k ∈ ts → dictGet info k = none → dictGet d k = some "" →
            dictGet info2 k = none ∧
            dictGet (List.foldl (anonymizeTagStep S) (d, stA, o) ts).1 k = some "") ∧
        ((info.map Prod.fst).Nodup → (info2.map Prod.fst).Nodup) := by
  intro ts
  induction ts with
  | nil =>
    intro _ d stA o info hinfo
    exact ⟨info, by simpa, fun k _ => ⟨rfl, rfl⟩, by simp, by simp, by simp, id⟩
  | cons t ts ih =>
    intro hnd d stA o info hinfo
    have hnotin : t ∉ ts := (List.nodup_cons.mp hnd).1
    have hnd2 : ts.Nodup := (List.nodup_cons.mp hnd).2
    obtain ⟨info1, hinfo1, hcase⟩ := anonymizeTagStep_char S t d stA o info hinfo
    obtain ⟨info2, hI, hA, hB, hC, hD, hE⟩ :=
      ih hnd2 (anonymizeTagStep S (d, stA, o) t).1 (anonymizeTagStep S (d, stA, o) t).2.1
        (anonymizeTagStep S (d, stA, o) t).2.2 info1 hinfo1
    have hinfo1k : ∀ k, k ≠ t → dictGet info1 k = dictGet info k := by
      intro k hk
      rcases hcase with ⟨_, _, h1⟩ | ⟨_, _, h1⟩ | ⟨v, _, _, _, h1⟩
      · rw [h1]
      · rw [h1]
      · rw [h1]
        by_cases hm : dictMem info t = true
        · simp [hm]
        · simp [hm, dictGet_dictSet_ne _ _ _ _ (fun hh => hk hh.symm)]
    have hd1 : ∀ k, k ≠ t →
        dictGet (anonymizeTagStep S (d, stA, o) t).1 k = dictGet d k := fun k hk =>
      anonymizeTagStep_get_of_ne S t k (d, stA, o) hk
    refine ⟨info2, ?_, ?_, ?_, ?_, ?_, ?_⟩
    · rw [List.foldl_cons]
      exact hI
    · intro k hk
      have hk1 : k ≠ t := fun hh => hk (by simp [hh])
      have hk2 : k ∉ ts := fun hh => hk (List.mem_cons_of_mem _ hh)
      rw [List.foldl_cons]
      exact ⟨(hA k hk2).1.trans (hinfo1k k hk1), ((hA k hk2).2).trans (hd1 k hk1)⟩
    · intro k v hk hik hdk hv
      rw [List.foldl_cons]
      rcases List.mem_cons.mp hk with rfl | hk2
      · rcases hcase with ⟨h1, _, _⟩ | ⟨h1, _, _⟩ | ⟨v0, h1, hne0, hpres, hinfo1eq⟩
        · rw [h1] at hdk; cases hdk
        · rw [h1] at hdk
          exact absurd (Option.some.inj hdk).symm hv
        · have hveq : v0 = v := by rw [h1] at hdk; exact Option.some.inj hdk
          subst hveq
          have hmf : ¬ dictMem info k = true := by simp [dictMem, hik]
          have hrec1 : dictGet info1 k = some v0 := by
            rw [hinfo1eq]; simp [hmf, dictGet_dictSet_self]
          refine ⟨(hA k hnotin).1.trans hrec1, ?_⟩
          rw [(hA k hnotin).2]
          exact hpres
      · have hk1 : k ≠ t := fun hh => hnotin (hh ▸ hk2)
        exact hB k v hk2 ((hinfo1k k hk1).trans hik) ((hd1 k hk1).trans hdk) hv
    · intro k hk hdk
      rw [List.foldl_cons]
      rcases List.mem_cons.mp hk with rfl | hk2
      · rcases hcase with ⟨h1, hstep1, _⟩ | ⟨h1, _, _⟩ | ⟨v0, h1, _, _, _⟩
        · rw [(hA k hnotin).2, hstep1]; exact hdk
        · rw [h1] at hdk; cases hdk
        · rw [h1] at hdk; cases hdk
      · have hk1 : k ≠ t := fun hh => hnotin (hh ▸ hk2)
        exact hC k hk2 ((hd1 k hk1).trans hdk)
    · intro k hk hik hdk
      rw [List.foldl_cons]
      rcases List.mem_cons.mp hk with rfl | hk2
      · rcases hcase with ⟨h1, _, _⟩ | ⟨h1, hstep1, hinfo1eq⟩ | ⟨v0, h1, hne0, _, _⟩
        · rw [h1] at hdk; cases hdk
        · refine ⟨(hA k hnotin).1.trans (by rw [hinfo1eq]; exact hik), ?_⟩
          rw [(hA k hnotin).2, hstep1]; exact hdk
        · exfalso
          rw [h1] at hdk
          exact hne0 (Option.some.inj hdk)
      · have hk1 : k ≠ t := fun hh => hnotin (hh ▸ hk2)
        exact hD k hk2 ((hinfo1k k hk1).trans hik) ((hd1 k hk1).trans hdk)
    · intro hinnd
      apply hE
      rcases hcase with ⟨_, _, h1⟩ | ⟨_, _, h1⟩ | ⟨v0, _, _, _, h1⟩
      · rw [h1]; exact hinnd
      · rw [h1]; exact hinnd
      · rw [h1]
        by_cases hm : dictMem info t = true
        · simpa [hm] using hinnd
        · have hnone : dictGet info t = none := by
            rcases hx : dictGet info t with _ | w
            · rfl
            · exact absurd (by simp [dictMem, hx]) hm
          simpa [hm] using dictSet_keys_nodup_of_none info t v0 hnone hinnd

theorem anonymizeTagStep_patientID_val (S : String)
    (acc : Dataset × AnonymizerState × List (String × String)) :
    dictGet (anonymizeTagStep S acc "PatientID").1 "PatientID"
      = dictGet acc.1 "PatientID" := by
  unfold anonymizeTagStep
  rcases hv : dictGet acc.1 "PatientID" with _ | v
  · simp [hv]
  · by_cases he : v = ""
    · simp [hv, he]
    · simp [hv, he, dictGet_dictSet_self]

/-- Across the whole PII loop the value of PatientID is never changed:
the PatientID branch writes back the original value. -/
theorem anonymizeFold_patientID_val (S : String) (ts : List String)
    (acc : Dataset × AnonymizerState × List (String × String)) :
    dictGet (List.foldl (anonymizeTagStep S) acc ts).1 "PatientID"
      = dictGet acc.1 "PatientID" := by
  induction ts generalizing acc with
  | nil => rfl
  | cons t ts ih =>
    rw [List.foldl_cons, ih]
    by_cases h : t = "PatientID"
    · subst h; exact anonymizeTagStep_patientID_val S acc
    · exact anonymizeTagStep_get_of_ne S t "PatientID" acc (fun hh => h hh.symm)

theorem anonymizeFold_roundtrip_core (st0 : AnonymizerState) (ds : Dataset) (S : String)
    (hS : dictGet ds "StudyInstanceUID" = some S)
    (hinfo0 : dictGet st0.patientInfoMap S = some []) :
    dictGet (List.foldl (anonymizeTagStep S) (ds, st0, []) PII_TAGS).1 "PatientID"
        = dictGet ds "PatientID" ∧
    ∃ ds2 : Dataset,
      restoreDataset (List.foldl (anonymizeTagStep S) (ds, st0, []) PII_TAGS).2.1
          (List.foldl (anonymizeTagStep S) (ds, st0, []) PII_TAGS).1 = some (ds2, true) ∧
      (∀ t2 ∈ PII_TAGS, ∀ v, dictGet ds t2 = some v → v ≠ "" → dictGet ds2 t2 = some v) ∧
      dictGet ds2 "PatientID" = dictGet ds "PatientID" := by
  obtain ⟨info2, hI, hA, hB, hC, hD, hE⟩ :=
    anonymizeFold_record_spec S PII_TAGS (by decide) ds st0 [] [] hinfo0
  refine ⟨anonymizeFold_patientID_val S PII_TAGS (ds, st0, []), ?_⟩
  have hS2 : dictGet (List.foldl (anonymizeTagStep S) (ds, st0, []) PII_TAGS).1
      "StudyInstanceUID" = some S := by
    rw [(hA "StudyInstanceUID" (by decide)).2]; exact hS
  have hnd2 : (info2.map Prod.fst).Nodup := hE (by simp)
  refine ⟨restoreFold info2 _, restoreDataset_eq _ _ S info2 hS2 hI, ?_, ?_⟩
  · intro t2 ht2 v hv hvne
    obtain ⟨hrec, hpres⟩ := hB t2 v ht2 rfl hv hvne
    exact restoreFold_write info2 _ t2 v hnd2 hrec hpres
  · rcases hid : dictGet ds "PatientID" with _ | v
    · have h1 := hC "PatientID" (by decide) hid
      rw [restoreFold_absent info2 _ "PatientID" h1]
    · by_cases hvne : v = ""
      · subst hvne
        obtain ⟨hrecn, hres⟩ := hD "PatientID" (by decide) rfl hid
        have hnk : "PatientID" ∉ info2.map Prod.fst :=
          (dictGet_eq_none_iff info2 "PatientID").mp hrecn
        rw [restoreFold_not_key info2 _ "PatientID" hnk, hres]
      · obtain ⟨hrec, hpres⟩ := hB "PatientID" v (by decide) rfl hid hvne
        rw [restoreFold_write info2 _ "PatientID" v hnd2 hrec hpres]

/-- C2 amended: when the dataset's study has no prior identity record,
`restore(anonymise(D))` reproduces every substituted PII field at its
original value, and PatientID is equal across the round-trip because
`anonymise` never changes it. -/
theorem C2_roundtrip_restores_pii (st : AnonymizerState) (ds : Dataset) (S : String)
    (hS : dictGet ds "StudyInstanceUID" = some S)
    (hfresh : dictGet st.patientInfoMap S = none) :
    ∃ r : Dataset × AnonymizerState × List (String × String),
      anonymizeDataset st ds = some r ∧
        dictGet r.1 "PatientID" = dictGet ds "PatientID" ∧
        ∃ ds2 : Dataset, restoreDataset r.2.1 r.1 = some (ds2, true) ∧
          (∀ t2 ∈ PII_TAGS, ∀ v, dictGet ds t2 = some v → v ≠ "" →
              dictGet ds2 t2 = some v) ∧
          dictGet ds2 "PatientID" = dictGet ds "PatientID" := by
  have hmf : ¬ dictMem st.patientInfoMap S = true := by simp [dictMem, hfresh]
  have heq : anonymizeDataset st ds = some (List.foldl (anonymizeTagStep S)
      (ds, { st with patientInfoMap := dictSet st.patientInfoMap S [] }, []) PII_TAGS) := by
    unfold anonymizeDataset
    rw [hS]
    simp [hmf]
  obtain ⟨h1, h2⟩ := anonymizeFold_roundtrip_core
    { st with patientInfoMap := dictSet st.patientInfoMap S [] } ds S hS
    (dictGet_dictSet_self _ _ _)
  exact ⟨_, heq, h1, h2⟩

/-- Witness for the amended C2 round-trip on a concrete dataset and a fresh
identity store. -/
theorem C2_roundtrip_restores_pii_witness :
    ∃ r : Dataset × AnonymizerState × List (String × String),
      anonymizeDataset initAnonymizerState
          [("StudyInstanceUID", "S1"), ("PatientName", "DOE^JOHN"), ("PatientID", "P1")]
        = some r ∧
        dictGet r.1 "PatientID"
            = dictGet ([("StudyInstanceUID", "S1"), ("PatientName", "DOE^JOHN"),
                ("PatientID", "P1")] : Dataset) "PatientID" ∧
        ∃ ds2 : Dataset, restoreDataset r.2.1 r.1 = some (ds2, true) ∧
          (∀ t2 ∈ PII_TAGS, ∀ v,
              dictGet ([("StudyInstanceUID", "S1"), ("PatientName", "DOE^JOHN"),
                ("PatientID", "P1")] : Dataset) t2 = some v → v ≠ "" →
              dictGet ds2 t2 = some v) ∧
          dictGet ds2 "PatientID"
            = dictGet ([("StudyInstanceUID", "S1"), ("PatientName", "DOE^JOHN"),
                ("PatientID", "P1")] : Dataset) "PatientID" :=
  C2_roundtrip_restores_pii initAnonymizerState
    [("StudyInstanceUID", "S1"), ("PatientName", "DOE^JOHN"), ("PatientID", "P1")]
    "S1" (by decide) (by decide)

/-- A store that already has an identity record for study S1 with a different
PatientID: the round trip overwrites the dataset's own PatientID. -/
def ceState : AnonymizerState :=
  { patientNameMap := [],
    patientInfoMap := [("S1", [("PatientID", "P1")])],
    patientCounter := 1 }

def ceDataset : Dataset := [("StudyInstanceUID", "S1"), ("PatientID", "P2")]

/-- C2 counterexample: with a pre-existing identity record for the study
(PatientID "P1"), anonymising a dataset of the same study carrying
PatientID "P2" and then restoring it yields PatientID "P1", so PatientID is
not equal across the round-trip and the substituted-field fidelity fails. -/
theorem C2_counterexample_patientID :
    ∃ r : Dataset × AnonymizerState × List (String × String),
      anonymizeDataset ceState ceDataset = some r ∧
        ∃ ds2 : Dataset, restoreDataset r.2.1 r.1 = some (ds2, true) ∧
          dictGet ds2 "PatientID" ≠ dictGet ceDataset "PatientID" := by
  refine ⟨_, rfl, _, rfl, ?_⟩
  decide

/-! ## Persistence as an event trace (`_save_patient_info_map`)

The effectful part of `anonymize_dataset` is embedded as a list of events:
lock acquisition/release, directory creation, file operations, and
`mutateMaps` for every in-place mutation of the shared dictionaries
(`patient_info_map`, `patient_name_map`, `patient_counter`). -/

inductive FsEvent where
  | acquireLock
  | releaseLock
  | mkdirParents (dir : String)
  | openTruncate (path : String)
  | writeAll (path : String)
  | fsyncFile (path : String)
  | renameFile (src dst : String)
  | mutateMaps
deriving DecidableEq

/-- `DicomAnonymizer._save_patient_info_map`: take the lock, create the parent
directory, open the live mapping file in write (truncate) mode and dump the
combined document into it, release the lock. -/
def saveTrace (mapDir mapFile : String) : List FsEvent :=
  [FsEvent.acquireLock, FsEvent.mkdirParents mapDir,
   FsEvent.openTruncate mapFile, FsEvent.writeAll mapFile, FsEvent.releaseLock]

/-- The shared-state mutations performed by one iteration of the PII loop:
recording a first-seen original, and (for a fresh PatientName) extending the
name map and bumping the counter. -/
def anonymizeTagStepEvents (studyUid : String)
    (acc : Dataset × AnonymizerState × List (String × String)) (tag : String) :
    List FsEvent :=
  match dictGet acc.1 tag with
  | none => []
  | some value =>
    if value = "" then []
    else
      let studyInfo := (dictGet acc.2.1.patientInfoMap studyUid).getD []
      (if dictMem studyInfo tag then [] else [FsEvent.mutateMaps]) ++
        (if tag = "PatientName" ∧ dictGet acc.2.1.patientNameMap value = none then
          [FsEvent.mutateMaps] else [])

def anonymizeTagStepEv (studyUid : String)
    (acc : (Dataset × AnonymizerState × List (String × String)) × List FsEvent)
    (tag : String) :
    (Dataset × AnonymizerState × List (String × String)) × List FsEvent :=
  (anonymizeTagStep studyUid acc.1 tag,
    acc.2 ++ anonymizeTagStepEvents studyUid acc.1 tag)

/-- `anonymize_dataset` with its event trace: the map mutations happen first
(outside the lock), then `_save_patient_info_map` runs. -/
def anonymizeDatasetTr (mapDir mapFile : String) (st : AnonymizerState) (ds : Dataset) :
    Option ((Dataset × AnonymizerState × List (String × String)) × List FsEvent) :=
  match dictGet ds "StudyInstanceUID" with
  | none => none
  | some studyUid =>
    let initEvents : List FsEvent :=
      if dictMem st.patientInfoMap studyUid then [] else [FsEvent.mutateMaps]
    let st0 :=
      if dictMem st.patientInfoMap studyUid then st
      else { st with patientInfoMap := dictSet st.patientInfoMap studyUid [] }
    let folded := PII_TAGS.foldl (anonymizeTagStepEv studyUid) ((ds, st0, []), initEvents)
    some (folded.1, folded.2 ++ saveTrace mapDir mapFile)

/-- The claim's persistence discipline: some temporary file distinct from the
live file is written and fsynced, then renamed over the live file. -/
def atomicReplaceClaim (tr : List FsEvent) (live : String) : Prop :=
  ∃ tmp, tmp ≠ live ∧ FsEvent.writeAll tmp ∈ tr ∧ FsEvent.fsyncFile tmp ∈ tr ∧
    FsEvent.renameFile tmp live ∈ tr

/-- The claim's locking discipline: every shared-map mutation happens while
the lock is held. -/
def allMutationsLocked : List FsEvent → Nat → Bool
  | [], _ => true
  | e :: r, depth =>
    match e with
    | FsEvent.acquireLock => allMutationsLocked r (depth + 1)
    | FsEvent.releaseLock => allMutationsLocked r (depth - 1)
    | FsEvent.mutateMaps => decide (0 < depth) && allMutationsLocked r depth
    | _ => allMutationsLocked r depth

theorem anonymizeTagStepEvents_all_mut (S : String)
    (acc : Dataset × AnonymizerState × List (String × String)) (tag : String) :
    ∀ e ∈ anonymizeTagStepEvents S acc tag, e = FsEvent.mutateMaps := by
  intro e he2
  unfold anonymizeTagStepEvents at he2
  rcases hv : dictGet acc.1 tag with _ | v <;> simp only [hv] at he2
  · simp at he2
  · split_ifs at he2 <;> simp_all

theorem anonymizeFoldEv_events (S : String) (ts : List String)
    (acc : Dataset × AnonymizerState × List (String × String)) (evs : List FsEvent) :
    ∃ l, (ts.foldl (anonymizeTagStepEv S) (acc, evs)).2 = evs ++ l ∧
      ∀ e ∈ l, e = FsEvent.mutateMaps := by
  induction ts generalizing acc evs with
  | nil => exact ⟨[], by simp, by simp⟩
  | cons t ts ih =>
    rw [List.foldl_cons]
    obtain ⟨l, hl, hall⟩ := ih (anonymizeTagStep S acc t) (evs ++ anonymizeTagStepEvents S acc t)
    refine ⟨anonymizeTagStepEvents S acc t ++ l, ?_, ?_⟩
    · rw [anonymizeTagStepEv]
      rw [hl, List.append_assoc]
    · intro e he
      rcases List.mem_append.mp he with h | h
      · exact anonymizeTagStepEvents_all_mut S acc t e h
      · exact hall e h

/-- C3 amended: each anonymise call persists by truncating and rewriting the
live mapping file in place under the global lock (lock, mkdir, open for
write, write, unlock); no temporary file, no fsync and no rename occur
anywhere in the trace, and every shared-map mutation happens before the lock
is taken. -/
theorem C3_save_rewrites_live_file_in_place (mapDir mapFile : String)
    (st : AnonymizerState) (ds : Dataset)
    (q : (Dataset × AnonymizerState × List (String × String)) × List FsEvent)
    (h : anonymizeDatasetTr mapDir mapFile st ds = some q) :
    (∃ muts, q.2 = muts ++ saveTrace mapDir mapFile ∧
        ∀ e ∈ muts, e = FsEvent.mutateMaps) ∧
      (∀ tmp, FsEvent.fsyncFile tmp ∉ q.2) ∧
      (∀ src dst, FsEvent.renameFile src dst ∉ q.2) ∧
      FsEvent.openTruncate mapFile ∈ q.2 ∧
      FsEvent.writeAll mapFile ∈ q.2 := by
  unfold anonymizeDatasetTr at h
  rcases hS : dictGet ds "StudyInstanceUID" with _ | S
  · rw [hS] at h; cases h
  · rw [hS] at h
    simp only [Option.some.injEq] at h
    obtain ⟨l, hl, hall⟩ := anonymizeFoldEv_events S PII_TAGS
      (ds,
        if dictMem st.patientInfoMap S then st
        else { st with patientInfoMap := dictSet st.patientInfoMap S [] }, [])
      (if dictMem st.patientInfoMap S then [] else [FsEvent.mutateMaps])
    have hq2 : q.2 =
        ((if dictMem st.patientInfoMap S then ([] : List FsEvent)
          else [FsEvent.mutateMaps]) ++ l) ++ saveTrace mapDir mapFile := by
      rw [← h]
      simp only [hl]
    have hmutsall : ∀ e ∈ (if dictMem st.patientInfoMap S then ([] : List FsEvent)
        else [FsEvent.mutateMaps]) ++ l, e = FsEvent.mutateMaps := by
      intro e he
      rcases List.mem_append.mp he with h1 | h1
      · by_cases hm : dictMem st.patientInfoMap S <;> simp [hm] at h1
        · exact h1
      · exact hall e h1
    refine ⟨⟨_, hq2, hmutsall⟩, ?_, ?_, ?_, ?_⟩
    · intro tmp hmem
      rw [hq2] at hmem
      rcases List.mem_append.mp hmem with h1 | h1
      · exact absurd (hmutsall _ h1) (by simp)
      · simp [saveTrace] at h1
    · intro src dst hmem
      rw [hq2] at hmem
      rcases List.mem_append.mp hmem with h1 | h1
      · exact absurd (hmutsall _ h1) (by simp)
      · simp [saveTrace] at h1
    · rw [hq2]
      simp [saveTrace]
    · rw [hq2]
      simp [saveTrace]

/-- Witness for the amended C3 on a concrete call. -/
theorem C3_save_rewrites_live_file_in_place_witness :
    ∃ q : (Dataset × AnonymizerState × List (String × String)) × List FsEvent,
      anonymizeDatasetTr "data" "data/patient_info_map.json" initAnonymizerState
          [("StudyInstanceUID", "S1"), ("PatientName", "DOE^JOHN")] = some q ∧
      (∃ muts, q.2 = muts ++ saveTrace "data" "data/patient_info_map.json" ∧
          ∀ e ∈ muts, e = FsEvent.mutateMaps) ∧
      (∀ tmp, FsEvent.fsyncFile tmp ∉ q.2) := by
  refine ⟨_, rfl, ?_⟩
  have h := C3_save_rewrites_live_file_in_place "data" "data/patient_info_map.json"
    initAnonymizerState [("StudyInstanceUID", "S1"), ("PatientName", "DOE^JOHN")] _ rfl
  exact ⟨h.1, h.2.1⟩

/-- C3 counterexample: on a concrete anonymise call the persistence trace is
three map mutations followed by the in-place rewrite of the live file; it
contains no fsync and no rename (so it is not the claimed atomic temp-file
replacement), and the shared-map mutations happen outside the lock. -/
theorem C3_counterexample_no_atomic_rename :
    (anonymizeDatasetTr "data" "data/patient_info_map.json" initAnonymizerState
        [("StudyInstanceUID", "S1"), ("PatientName", "DOE^JOHN")]).map Prod.snd
      = some ([FsEvent.mutateMaps, FsEvent.mutateMaps, FsEvent.mutateMaps] ++
          saveTrace "data" "data/patient_info_map.json") ∧
    ¬ atomicReplaceClaim
        ([FsEvent.mutateMaps, FsEvent.mutateMaps, FsEvent.mutateMaps] ++
          saveTrace "data" "data/patient_info_map.json") "data/patient_info_map.json" ∧
    allMutationsLocked
        ([FsEvent.mutateMaps, FsEvent.mutateMaps, FsEvent.mutateMaps] ++
          saveTrace "data" "data/patient_info_map.json") 0 = false := by
  refine ⟨by decide, ?_, by decide⟩
  rintro ⟨tmp, hne, hw, hf, hr⟩
  simp [saveTrace] at hf

/-! ## Quiescence monitor (`dicom_receiver/core/storage.py`, `StudyMonitor`)

Wall-clock instants are rationals.  The background loop is embedded as a
sequence of poll instants: `monitorPoll` is the body of one iteration of
`_monitor_studies_timeout` together with the `_finalize_study` calls it
makes, and `monitorRun` folds it over the poll instants, logging which
studies fired at each instant. -/

structure MonitorState where
  studyLastActivity : List (String × ℚ)
  activeStudies : List String
deriving DecidableEq

/-- `StudyMonitor.update_study_activity` at instant `now`. -/
def updateStudyActivity (now : ℚ) (uid : String) (st : MonitorState) : MonitorState :=
  { studyLastActivity := dictSet st.studyLastActivity uid now,
    activeStudies :=
      if uid ∈ st.activeStudies then st.activeStudies else st.activeStudies ++ [uid] }

/-- One wake-up of `_monitor_studies_timeout` at instant `now`: pop every
study whose last activity is strictly older than the timeout and run
`_finalize_study` on it, which fires the callbacks for studies still in the
active set and removes them from it. -/
def monitorPoll (timeout now : ℚ) (st : MonitorState) : MonitorState × List String :=
  let toFinalize :=
    (st.studyLastActivity.filter (fun p => decide (now - p.2 > timeout))).map Prod.fst
  let remaining :=
    st.studyLastActivity.filter (fun p => ! decide (now - p.2 > timeout))
  let fired := toFinalize.filter (fun u => decide (u ∈ st.activeStudies))
  let newActive := st.activeStudies.filter (fun u => ! decide (u ∈ toFinalize))
  ({ studyLastActivity := remaining, activeStudies := newActive }, fired)

/-- The monitor loop over a list of poll instants, with a log of
`(instant, fired studies)` pairs. -/
def monitorRun (timeout : ℚ) : MonitorState → List ℚ → MonitorState × List (ℚ × List String)
  | st, [] => (st, [])
  | st, q :: qs =>
    let step := monitorPoll timeout q st
    let rest := monitorRun timeout step.1 qs
    (rest.1, (q, step.2) :: rest.2)

theorem dictGet_mem {α β : Type} [DecidableEq α] (d : List (α × β)) (k : α) (v : β)
    (h : dictGet d k = some v) : (k, v) ∈ d := by
  induction d with
  | nil => cases h
  | cons hd tl ih =>
    by_cases h1 : hd.1 = k
    · rw [dictGet, if_pos h1] at h
      have h2 : (k, v) = hd := by rw [← h1, ← Option.some.inj h]
      rw [h2]
      exact List.mem_cons_self _ _
    · rw [dictGet, if_neg h1] at h
      exact List.mem_cons_of_mem _ (ih h)

theorem dictGet_of_mem_nodup {α β : Type} [DecidableEq α] (d : List (α × β)) (k : α) (v : β)
    (hnd : (d.map Prod.fst).Nodup) (hmem : (k, v) ∈ d) : dictGet d k = some v := by
  induction d with
  | nil => cases hmem
  | cons hd tl ih =>
    rcases List.mem_cons.mp hmem with h | h
    · rw [← h]
      simp [dictGet]
    · have h1 : ¬ hd.1 = k := by
        intro hh
        have : k ∈ tl.map Prod.fst := List.mem_map.mpr ⟨(k, v), h, rfl⟩
        exact (List.nodup_cons.mp hnd).1 (hh ▸ this)
      rw [dictGet, if_neg h1]
      exact ih (List.nodup_cons.mp hnd).2 h

theorem dictGet_filter_keep {α β : Type} [DecidableEq α] (p : α × β → Bool)
    (l : List (α × β)) (k : α) (v : β)
    (h : dictGet l k = some v) (hp : p (k, v) = true) :
    dictGet (l.filter p) k = some v := by
  induction l with
  | nil => cases h
  | cons hd tl ih =>
    by_cases h1 : hd.1 = k
    · rw [dictGet, if_pos h1] at h
      have h2 : hd.2 = v := Option.some.inj h
      have hp2 : p hd = true := by
        have h3 : hd = (k, v) := by rw [← h1, ← h2]
        rw [h3]; exact hp
      rw [List.filter_cons, if_pos hp2, dictGet, if_pos h1, h2]
    · rw [dictGet, if_neg h1] at h
      rw [List.filter_cons]
      by_cases hph : p hd = true
      · rw [if_pos hph, dictGet, if_neg h1]
        exact ih h
      · rw [if_neg hph]
        exact ih h

theorem dictGet_filter_none {α β : Type} [DecidableEq α] (p : α × β → Bool)
    (l : List (α × β)) (k : α) (h : dictGet l k = none) :
    dictGet (l.filter p) k = none := by
  rw [dictGet_eq_none_iff] at h ⊢
  intro hk
  rcases List.mem_map.mp hk with ⟨x, hx, hfx⟩
  exact h (List.mem_map.mpr ⟨x, List.mem_of_mem_filter hx, hfx⟩)

theorem not_mem_finalize_of_le (T q t : ℚ) (l : List (String × ℚ)) (S : String)
    (hnd : (l.map Prod.fst).Nodup) (hS : dictGet l S = some t) (hq : ¬ (q - t > T)) :
    S ∉ (l.filter (fun p => decide (q - p.2 > T))).map Prod.fst := by
  intro hk
  rcases List.mem_map.mp hk with ⟨x, hx, hfx⟩
  have hxl : x ∈ l := List.mem_of_mem_filter hx
  have hcond : decide (q - x.2 > T) = true := (List.mem_filter.mp hx).2
  have hx2 : dictGet l S = some x.2 := by
    apply dictGet_of_mem_nodup l S x.2 hnd
    have hxx : x = (S, x.2) := by rw [← hfx]
    rw [← hxx]
    exact hxl
  rw [hS] at hx2
  have ht : x.2 = t := (Option.some.inj hx2).symm
  rw [ht] at hcond
  exact hq (of_decide_eq_true hcond)

theorem mem_finalize_of_gt (T q t : ℚ) (l : List (String × ℚ)) (S : String)
    (hS : dictGet l S = some t) (hq : q - t > T) :
    S ∈ (l.filter (fun p => decide (q - p.2 > T))).map Prod.fst :=
  List.mem_map.mpr ⟨(S, t), List.mem_filter.mpr ⟨dictGet_mem l S t hS, by simp [hq]⟩, rfl⟩

theorem monitorPoll_before (T q t : ℚ) (S : String) (st : MonitorState)
    (hnd : (st.studyLastActivity.map Prod.fst).Nodup)
    (hS : dictGet st.studyLastActivity S = some t)
    (hact : S ∈ st.activeStudies)
    (hq : ¬ (q - t > T)) :
    dictGet (monitorPoll T q st).1.studyLastActivity S = some t ∧
      S ∈ (monitorPoll T q st).1.activeStudies ∧
      S ∉ (monitorPoll T q st).2 ∧
      ((monitorPoll T q st).1.studyLastActivity.map Prod.fst).Nodup := by
  have hnotfin := not_mem_finalize_of_le T q t st.studyLastActivity S hnd hS hq
  refine ⟨?_, ?_, ?_, ?_⟩
  · exact dictGet_filter_keep _ _ S t hS (by simp [hq])
  · exact List.mem_filter.mpr ⟨hact, by simp [hnotfin]⟩
  · intro hmem
    exact hnotfin (List.mem_of_mem_filter hmem)
  · exact List.Nodup.sublist ((List.filter_sublist _).map Prod.fst) hnd

theorem monitorPoll_fire (T q t : ℚ) (S : String) (st : MonitorState)
    (hnd : (st.studyLastActivity.map Prod.fst).Nodup)
    (hS : dictGet st.studyLastActivity S = some t)
    (hact : S ∈ st.activeStudies)
    (hq : q - t > T) :
    S ∈ (monitorPoll T q st).2 ∧
      dictGet (monitorPoll T q st).1.studyLastActivity S = none ∧
      ((monitorPoll T q st).1.studyLastActivity.map Prod.fst).Nodup := by
  have hmemfin := mem_finalize_of_gt T q t st.studyLastActivity S hS hq
  refine ⟨List.mem_filter.mpr ⟨hmemfin, by simp [hact]⟩, ?_, ?_⟩
  · rw [dictGet_eq_none_iff]
    intro hk
    rcases List.mem_map.mp hk with ⟨x, hx, hfx⟩
    have hxl := List.mem_of_mem_filter hx
    have hcond : (! decide (q - x.2 > T)) = true := (List.mem_filter.mp hx).2
    have hx2 : dictGet st.studyLastActivity S = some x.2 := by
      apply dictGet_of_mem_nodup _ _ _ hnd
      have hxx : x = (S, x.2) := by rw [← hfx]
      rw [← hxx]
      exact hxl
    rw [hS] at hx2
    have ht : x.2 = t := (Option.some.inj hx2).symm
    rw [ht] at hcond
    simp [hq] at hcond
  · exact List.Nodup.sublist ((List.filter_sublist _).map Prod.fst) hnd

theorem monitorPoll_absent (T q : ℚ) (S : String) (st : MonitorState)
    (h : dictGet st.studyLastActivity S = none) :
    dictGet (monitorPoll T q st).1.studyLastActivity S = none ∧
      S ∉ (monitorPoll T q st).2 := by
  refine ⟨dictGet_filter_none _ _ _ h, ?_⟩
  intro hmem
  have h2 := List.mem_of_mem_filter hmem
  rw [dictGet_eq_none_iff] at h
  rcases List.mem_map.mp h2 with ⟨x, hx, hfx⟩
  exact h (List.mem_map.mpr ⟨x, List.mem_of_mem_filter hx, hfx⟩)

theorem monitorRun_no_fire (T : ℚ) (S : String) :
    ∀ (qs : List ℚ) (st : MonitorState), dictGet st.studyLastActivity S = none →
      (monitorRun T st qs).2.filter (fun e => decide (S ∈ e.2)) = [] := by
  intro qs
  induction qs with
  | nil => intro st _; rfl
  | cons q qs ih =>
    intro st h
    obtain ⟨h1, h2⟩ := monitorPoll_absent T q S st h
    show ((q, (monitorPoll T q st).2) ::
        (monitorRun T (monitorPoll T q st).1 qs).2).filter _ = []
    rw [List.filter_cons, if_neg (by simp [h2])]
    exact ih (monitorPoll T q st).1 h1

theorem dictSet_map_fst_of_mem {α β : Type} [DecidableEq α]
    (d : List (α × β)) (k : α) (v w : β) (h : dictGet d k = some w) :
    (dictSet d k v).map Prod.fst = d.map Prod.fst := by
  induction d with
  | nil => cases h
  | cons hd tl ih =>
    by_cases h1 : hd.1 = k
    · simp [dictSet, h1]
    · rw [dictGet, if_neg h1] at h
      simp [dictSet, h1, ih h]

theorem dictSet_keys_nodup {α β : Type} [DecidableEq α]
    (d : List (α × β)) (k : α) (v : β) (h : (d.map Prod.fst).Nodup) :
    ((dictSet d k v).map Prod.fst).Nodup := by
  rcases hx : dictGet d k with _ | w
  · exact dictSet_keys_nodup_of_none d k v hx h
  · rw [dictSet_map_fst_of_mem d k v w hx]
    exact h

/-- Core induction: starting from a state where S is pending with last
activity t, over polls that keep a chain of gaps at most `dlt` starting from
an instant at or before the deadline, S fires exactly once, strictly after
`t + T` and no later than `t + T + dlt`. -/
theorem monitorRun_fires_once (T dlt t : ℚ) (S : String) :
    ∀ (qs : List ℚ) (prev : ℚ) (st : MonitorState),
      (st.studyLastActivity.map Prod.fst).Nodup →
      dictGet st.studyLastActivity S = some t →
      S ∈ st.activeStudies →
      prev ≤ t + T →
      List.Chain' (fun a b => a < b ∧ b - a ≤ dlt) (prev :: qs) →
      (∃ q ∈ qs, t + T < q) →
      ∃ t2,
        ((monitorRun T st qs).2.filter (fun e => decide (S ∈ e.2))).map Prod.fst = [t2] ∧
        t + T ≤ t2 ∧ t2 ≤ t + T + dlt := by
  intro qs
  induction qs with
  | nil =>
    intro prev st _ _ _ _ _ hex
    simp at hex
  | cons q qs ih =>
    intro prev st hnd hS hact hprev hchain hex
    have hpq : prev < q ∧ q - prev ≤ dlt := (List.chain'_cons.mp hchain).1
    have hchain2 : List.Chain' (fun a b => a < b ∧ b - a ≤ dlt) (q :: qs) :=
      (List.chain'_cons.mp hchain).2
    by_cases hq : t + T < q
    · have hql : q - t > T := by linarith
      obtain ⟨hf, hnoneafter, _⟩ := monitorPoll_fire T q t S st hnd hS hact hql
      refine ⟨q, ?_, by linarith, by linarith [hpq.2]⟩
      show (((q, (monitorPoll T q st).2) ::
          (monitorRun T (monitorPoll T q st).1 qs).2).filter
            (fun e => decide (S ∈ e.2))).map Prod.fst = [q]
      rw [List.filter_cons, if_pos (by simp [hf]),
        monitorRun_no_fire T S qs (monitorPoll T q st).1 hnoneafter]
      rfl
    · have hqle : ¬ (q - t > T) := by
        intro hgt
        exact hq (by linarith)
      obtain ⟨h1, h2, h3, hnd2⟩ := monitorPoll_before T q t S st hnd hS hact hqle
      have hex2 : ∃ q2 ∈ qs, t + T < q2 := by
        rcases hex with ⟨q2, hq2mem, hq2⟩
        rcases List.mem_cons.mp hq2mem with rfl | hmem
        · exact absurd hq2 hq
        · exact ⟨q2, hmem, hq2⟩
      have hqle2 : q ≤ t + T := by linarith [not_lt.mp hq]
      obtain ⟨t2, hfil, hb1, hb2⟩ :=
        ih q (monitorPoll T q st).1 hnd2 h1 h2 hqle2 hchain2 hex2
      refine ⟨t2, ?_, hb1, hb2⟩
      show (((q, (monitorPoll T q st).2) ::
          (monitorRun T (monitorPoll T q st).1 qs).2).filter
            (fun e => decide (S ∈ e.2))).map Prod.fst = [t2]
      rw [List.filter_cons, if_neg (by simp [h3])]
      exact hfil

/-- C4: if the last touch for study S happens at instant t and the monitor
then polls at instants forming a chain with gaps at most one polling period
`dlt`, starting no later than the deadline `t + T` and eventually passing it,
then the completion callback for S fires exactly once, at an instant `t2`
with `t + T ≤ t2 ≤ t + T + dlt` and never before the timeout has elapsed. -/
theorem C4_quiescence_timing (T dlt t : ℚ) (S : String) (stPre : MonitorState)
    (q0 : ℚ) (qs : List ℚ)
    (hnd : (stPre.studyLastActivity.map Prod.fst).Nodup)
    (hq0 : q0 ≤ t + T)
    (hchain : List.Chain' (fun a b => a < b ∧ b - a ≤ dlt) (q0 :: qs))
    (hex : ∃ q ∈ qs, t + T < q) :
    ∃ t2,
      ((monitorRun T (updateStudyActivity t S stPre) (q0 :: qs)).2.filter
          (fun e => decide (S ∈ e.2))).map Prod.fst = [t2] ∧
      t + T ≤ t2 ∧ t2 ≤ t + T + dlt := by
  have hS0 : dictGet (updateStudyActivity t S stPre).studyLastActivity S = some t :=
    dictGet_dictSet_self _ _ _
  have hact0 : S ∈ (updateStudyActivity t S stPre).activeStudies := by
    by_cases hmem : S ∈ stPre.activeStudies <;> simp [updateStudyActivity, hmem]
  have hnd0 : ((updateStudyActivity t S stPre).studyLastActivity.map Prod.fst).Nodup := by
    simpa [updateStudyActivity] using dictSet_keys_nodup stPre.studyLastActivity S t hnd
  have hq0n : ¬ (q0 - t > T) := by intro hgt; linarith
  obtain ⟨h1, h2, h3, hnd1⟩ :=
    monitorPoll_before T q0 t S (updateStudyActivity t S stPre) hnd0 hS0 hact0 hq0n
  obtain ⟨t2, hfil, hb1, hb2⟩ :=
    monitorRun_fires_once T dlt t S qs q0
      (monitorPoll T q0 (updateStudyActivity t S stPre)).1 hnd1 h1 h2 hq0 hchain hex
  refine ⟨t2, ?_, hb1, hb2⟩
  show (((q0, (monitorPoll T q0 (updateStudyActivity t S stPre)).2) ::
      (monitorRun T (monitorPoll T q0 (updateStudyActivity t S stPre)).1 qs).2).filter
        (fun e => decide (S ∈ e.2))).map Prod.fst = [t2]
  rw [List.filter_cons, if_neg (by simp [h3])]
  exact hfil

/-- Witness for C4: timeout 2, polls at 1, 2, 3 with gaps 1 after a touch at
instant 0; the callback fires exactly once, at instant 3 ∈ [2, 3]. -/
theorem C4_quiescence_timing_witness :
    ∃ t2 : ℚ,
      ((monitorRun 2 (updateStudyActivity 0 "S" { studyLastActivity := [], activeStudies := [] })
          [1, 2, 3]).2.filter (fun e => decide ("S" ∈ e.2))).map Prod.fst = [t2] ∧
      (0 : ℚ) + 2 ≤ t2 ∧ t2 ≤ 0 + 2 + 1 :=
  C4_quiescence_timing 2 1 0 "S" { studyLastActivity := [], activeStudies := [] } 1 [2, 3]
    (by simp)
    (by norm_num)
    (by
      refine List.chain'_cons.mpr ⟨⟨by norm_num, by norm_num⟩, ?_⟩
      refine List.chain'_cons.mpr ⟨⟨by norm_num, by norm_num⟩, ?_⟩
      simp)
    ⟨3, by simp, by norm_num⟩

/-! ## Auto-forwarder (`dicom_receiver/core/node_manager.py`, `NodeManager`)

The forwarding ledger `sent_tracking` is a dict from node id to a dict from
series uid to an ISO timestamp string.  One tick of the polling loop
(`_check_and_forward_new_series`) walks the API catalogue and, for every
enabled node and series not yet in the ledger, makes a forwarding attempt
(download plus outbound association, `_forward_series_to_node`); the outcome
of an attempt is abstracted by the oracle `ok`, and a successful attempt is
recorded with `_mark_series_sent`. -/

structure NodeConfig where
  name : String
  ip : String
  port : Nat
  aet : String
  enabled : Bool
  description : String
deriving DecidableEq

abbrev Ledger := List (String × List (String × String))

/-- `NodeManager._is_series_sent`. -/
def isSeriesSent (ledger : Ledger) (nodeId seriesUid : String) : Bool :=
  match dictGet ledger nodeId with
  | some m => dictMem m seriesUid
  | none => false

/-- `NodeManager._mark_series_sent`. -/
def markSeriesSent (ledger : Ledger) (nodeId seriesUid ts : String) : Ledger :=
  dictSet ledger nodeId (dictSet ((dictGet ledger nodeId).getD []) seriesUid ts)

structure ApiResult where
  resultId : String
  studies : List (String × List String)
deriving DecidableEq

/-- The inner `for node_id, node_config in enabled_nodes.items()` loop for one
series: attempt and, on success, record.  The attempt list collects every
`(node, series)` pair for which an outbound association is opened. -/
def forwardNodeLoop (ok : String → String → Bool) (ts seriesUid : String)
    (nodes : List (String × NodeConfig)) (acc : Ledger × List (String × String)) :
    Ledger × List (String × String) :=
  nodes.foldl
    (fun acc2 node =>
      if ! isSeriesSent acc2.1 node.1 seriesUid then
        if ok node.1 seriesUid then
          (markSeriesSent acc2.1 node.1 seriesUid ts, acc2.2 ++ [(node.1, seriesUid)])
        else (acc2.1, acc2.2 ++ [(node.1, seriesUid)])
      else acc2)
    acc

/-- One tick of `_check_and_forward_new_series` over the API catalogue. -/
def checkAndForwardTick (ok : String → String → Bool) (ts : String)
    (results : List ApiResult) (nodes : List (String × NodeConfig)) (ledger : Ledger) :
    Ledger × List (String × String) :=
  let enabledNodes := nodes.filter (fun n => n.2.enabled)
  results.foldl
    (fun acc r =>
      r.studies.foldl
        (fun acc2 stu =>
          stu.2.foldl
            (fun acc3 seriesUid => forwardNodeLoop ok ts seriesUid enabledNodes acc3)
            acc2)
        acc)
    (ledger, [])

/-- A sequence of Auto-Forwarder ticks, each with its own oracle, timestamp,
catalogue and node configuration; returns the final ledger and the attempt
list of every tick. -/
def runTicks (ledger : Ledger) :
    List ((String → String → Bool) × String × List ApiResult × List (String × NodeConfig)) →
      Ledger × List (List (String × String))
  | [] => (ledger, [])
  | tick :: rest =>
    let r := checkAndForwardTick tick.1 tick.2.1 tick.2.2.1 tick.2.2.2 ledger
    let rr := runTicks r.1 rest
    (rr.1, r.2 :: rr.2)

theorem markSeriesSent_preserves (ledger : Ledger) (N Y n2 y2 ts : String)
    (h : isSeriesSent ledger N Y = true) :
    isSeriesSent (markSeriesSent ledger n2 y2 ts) N Y = true := by
  unfold isSeriesSent at h ⊢
  unfold markSeriesSent
  by_cases hn : n2 = N
  · subst hn
    rw [dictGet_dictSet_self]
    rcases hm : dictGet ledger n2 with _ | m
    · rw [hm] at h; cases h
    · rw [hm] at h
      simp only [hm, Option.getD_some]
      by_cases hy : y2 = Y
      · subst hy
        simp [dictMem, dictGet_dictSet_self]
      · simpa [dictMem, dictGet_dictSet_ne _ _ _ _ hy] using h
  · rw [dictGet_dictSet_ne _ _ _ _ hn]
    exact h

theorem foldl_sent_preserved {α : Type} (N Y : String)
    (step : Ledger × List (String × String) → α → Ledger × List (String × String))
    (l : List α)
    (h : ∀ x ∈ l, ∀ acc, isSeriesSent acc.1 N Y = true →
        isSeriesSent (step acc x).1 N Y = true ∧
          ∀ p ∈ (step acc x).2, p ∈ acc.2 ∨ p ≠ (N, Y)) :
    ∀ acc, isSeriesSent acc.1 N Y = true →
      isSeriesSent (l.foldl step acc).1 N Y = true ∧
        ∀ p ∈ (l.foldl step acc).2, p ∈ acc.2 ∨ p ≠ (N, Y) := by
  induction l with
  | nil =>
    intro acc hs
    exact ⟨hs, fun p hp => Or.inl hp⟩
  | cons x xs ih =>
    intro acc hs
    rw [List.foldl_cons]
    have hx := h x (by simp) acc hs
    have hxs := ih (fun y hy => h y (by simp [hy])) (step acc x) hx.1
    refine ⟨hxs.1, fun p hp => ?_⟩
    rcases hxs.2 p hp with h1 | h1
    · rcases hx.2 p h1 with h2 | h2
      · exact Or.inl h2
      · exact Or.inr h2
    · exact Or.inr h1

theorem forwardNodeLoop_sent_preserved (N Y : String) (ok : String → String → Bool)
    (ts seriesUid : String) (nodes : List (String × NodeConfig)) :
    ∀ acc, isSeriesSent acc.1 N Y = true →
      isSeriesSent (forwardNodeLoop ok ts seriesUid nodes acc).1 N Y = true ∧
        ∀ p ∈ (forwardNodeLoop ok ts seriesUid nodes acc).2, p ∈ acc.2 ∨ p ≠ (N, Y) := by
  unfold forwardNodeLoop
  apply foldl_sent_preserved
  intro node _ acc hs
  by_cases hsent : isSeriesSent acc.1 node.1 seriesUid = true
  · simp only [hsent]
    exact ⟨hs, fun p hp => Or.inl hp⟩
  · have hne : (node.1, seriesUid) ≠ (N, Y) := by
      intro hh
      rw [Prod.mk.injEq] at hh
      rw [hh.1, hh.2] at hsent
      exact hsent hs
    by_cases hok : ok node.1 seriesUid = true <;>
      · simp only [hsent, hok]
        simp only [Bool.not_true, Bool.not_false, if_true, if_false, Bool.false_eq_true]
        constructor
        · first
          | exact markSeriesSent_preserves acc.1 N Y node.1 seriesUid ts hs
          | exact hs
        · intro p hp
          rcases List.mem_append.mp hp with h1 | h1
          · exact Or.inl h1
          · have : p = (node.1, seriesUid) := by simpa using h1
            rw [this]
            exact Or.inr hne

theorem checkAndForwardTick_sent_preserved (N Y : String) (ok : String → String → Bool)
    (ts : String) (results : List ApiResult) (nodes : List (String × NodeConfig))
    (ledger : Ledger) (h : isSeriesSent ledger N Y = true) :
    isSeriesSent (checkAndForwardTick ok ts results nodes ledger).1 N Y = true ∧
      (N, Y) ∉ (checkAndForwardTick ok ts results nodes ledger).2 := by
  unfold checkAndForwardTick
  have hmain := foldl_sent_preserved N Y
    (fun acc r =>
      r.studies.foldl
        (fun acc2 stu =>
          stu.2.foldl
            (fun acc3 seriesUid =>
              forwardNodeLoop ok ts seriesUid (nodes.filter (fun n => n.2.enabled)) acc3)
            acc2)
        acc)
    results
    (by
      intro r _
      apply foldl_sent_preserved
      intro stu _
      apply foldl_sent_preserved
      intro seriesUid _ acc hs
      exact forwardNodeLoop_sent_preserved N Y ok ts seriesUid _ acc hs)
    (ledger, []) h
  refine ⟨hmain.1, fun hmem => ?_⟩
  rcases hmain.2 (N, Y) hmem with h1 | h1
  · cases h1
  · exact h1 rfl

/-- C5: once `(N, Y)` is in the forwarding ledger, no later tick of the
Auto-Forwarder makes a forwarding attempt (outbound association) for series
Y to node N — under any catalogues, node configurations and forwarding
outcomes — and the entry is still in the ledger afterwards, until it is
explicitly cleared. -/
theorem C5_forwarding_at_most_once (N Y : String) (ledger : Ledger)
    (h : isSeriesSent ledger N Y = true) :
    ∀ ticks : List ((String → String → Bool) × String ×
        List ApiResult × List (String × NodeConfig)),
      (∀ att ∈ (runTicks ledger ticks).2, (N, Y) ∉ att) ∧
        isSeriesSent (runTicks ledger ticks).1 N Y = true := by
  intro ticks
  induction ticks generalizing ledger with
  | nil =>
    exact ⟨by simp [runTicks], h⟩
  | cons tick rest ih =>
    obtain ⟨hsent, hnoatt⟩ :=
      checkAndForwardTick_sent_preserved N Y tick.1 tick.2.1 tick.2.2.1 tick.2.2.2 ledger h
    obtain ⟨ih1, ih2⟩ :=
      ih (checkAndForwardTick tick.1 tick.2.1 tick.2.2.1 tick.2.2.2 ledger).1 hsent
    refine ⟨?_, ih2⟩
    intro att hatt
    rcases List.mem_cons.mp hatt with rfl | hmem
    · exact hnoatt
    · exact ih1 att hmem

/-- Witness for C5: with `(N1, S1)` recorded in the ledger, one tick whose
catalogue contains series S1 for enabled node N1 makes no attempt for it. -/
theorem C5_forwarding_at_most_once_witness :
    (∀ att ∈ (runTicks [("N1", [("S1", "2024-01-01T00:00:00")])]
        [(fun _ _ => true, "2024-01-02T00:00:00",
          [{ resultId := "r1", studies := [("T1", ["S1"])] }],
          [("N1", { name := "Node 1", ip := "127.0.0.1", port := 11113, aet := "HOROS",
                    enabled := true, description := "" })])]).2,
      ("N1", "S1") ∉ att) ∧
    isSeriesSent (runTicks [("N1", [("S1", "2024-01-01T00:00:00")])]
        [(fun _ _ => true, "2024-01-02T00:00:00",
          [{ resultId := "r1", studies := [("T1", ["S1"])] }],
          [("N1", { name := "Node 1", ip := "127.0.0.1", port := 11113, aet := "HOROS",
                    enabled := true, description := "" })])]).1 "N1" "S1" = true :=
  C5_forwarding_at_most_once "N1" "S1" [("N1", [("S1", "2024-01-01T00:00:00")])]
    (by decide)
    [(fun _ _ => true, "2024-01-02T00:00:00",
      [{ resultId := "r1", studies := [("T1", ["S1"])] }],
      [("N1", { name := "Node 1", ip := "127.0.0.1", port := 11113, aet := "HOROS",
                enabled := true, description := "" })])]

/-! ## C-MOVE handler (`dicom_receiver/core/handlers/move_handler.py`)

The generator protocol of `MoveHandler.handle_move` is embedded as the list
of values it yields.  File resolution (`_find_local_files`,
`_find_api_files`) performs I/O, so the resolved local and API file lists
are inputs of the model; de-anonymisation of each dataset is the
`AnonymizationUtils` collaborator, abstracted as a function. -/

inductive MoveYield where
  | destination (ip : String) (port : Nat)
  | subOps (n : Nat)
  | pendingDs (ds : Dataset)
  | statusCode (code : Nat)
deriving DecidableEq

/-- `MoveHandler.handle_move` after file resolution: with no files at all it
yields the refusal status 0xA701 and stops; otherwise it yields the
destination address, the sub-operation count, one pending dataset per file
(local files first, each de-anonymised), and the terminal success status. -/
def handleMove (dest : String × Nat) (deAnon : Dataset → Dataset)
    (localFiles apiFiles : List Dataset) : List MoveYield :=
  if localFiles.length + apiFiles.length = 0 then
    [MoveYield.statusCode 0xA701]
  else
    [MoveYield.destination dest.1 dest.2,
     MoveYield.subOps (localFiles.length + apiFiles.length)] ++
      (localFiles ++ apiFiles).map (fun f => MoveYield.pendingDs (deAnon f)) ++
      [MoveYield.statusCode 0x0000]

/-- C6: when no files can be located, neither locally nor via the API, the
C-MOVE handler yields exactly the refusal status 0xA701 and never yields a
destination tuple, so no outbound association is initiated. -/
theorem C6_move_refusal_without_destination (dest : String × Nat)
    (deAnon : Dataset → Dataset) :
    handleMove dest deAnon [] [] = [MoveYield.statusCode 0xA701] ∧
      ∀ ip port, MoveYield.destination ip port ∉ handleMove dest deAnon [] [] := by
  refine ⟨rfl, ?_⟩
  intro ip port hmem
  rw [show handleMove dest deAnon [] [] = [MoveYield.statusCode 0xA701] from rfl] at hmem
  simp at hmem

/-- Witness for C6 at a concrete destination. -/
theorem C6_move_refusal_without_destination_witness :
    handleMove ("127.0.0.1", 104) (fun d => d) [] [] = [MoveYield.statusCode 0xA701] ∧
      MoveYield.destination "127.0.0.1" 104 ∉ handleMove ("127.0.0.1", 104) (fun d => d) [] [] :=
  ⟨(C6_move_refusal_without_destination ("127.0.0.1", 104) (fun d => d)).1,
    (C6_move_refusal_without_destination ("127.0.0.1", 104) (fun d => d)).2 "127.0.0.1" 104⟩

/-! ## Object-store walkers and the PATIENT C-FIND
(`DicomStorage.get_all_patients`, `PatientQueryHandler.find_patients`)

The on-disk hierarchy is embedded as a tree; an unreadable DICOM file is a
scan with no content. -/

structure ScanFile where
  fileName : String
  content : Option Dataset
deriving DecidableEq

structure SeriesDir where
  seriesUid : String
  scans : Option (List ScanFile)
deriving DecidableEq

structure StudyDir where
  studyUid : String
  series : List SeriesDir
deriving DecidableEq

structure PatientDir where
  patientId : String
  studies : List StudyDir
deriving DecidableEq

def firstReadableInScans : List ScanFile → Option Dataset
  | [] => none
  | f :: fs =>
    match f.content with
    | some ds => some ds
    | none => firstReadableInScans fs

def firstReadableInSeries : List SeriesDir → Option Dataset
  | [] => none
  | s :: rest =>
    match s.scans with
    | some files =>
      match firstReadableInScans files with
      | some ds => some ds
      | none => firstReadableInSeries rest
    | none => firstReadableInSeries rest

def firstReadableInStudies : List StudyDir → Option Dataset
  | [] => none
  | stu :: rest =>
    match firstReadableInSeries stu.series with
    | some ds => some ds
    | none => firstReadableInStudies rest

/-- The per-patient record built by `get_all_patients`. -/
def mkPatientRecord (pid : String) (ds : Dataset) : List (String × String) :=
  let r := [("PatientID", pid)]
  let r := match dictGet ds "PatientName" with
    | some v => dictSet r "PatientName" v
    | none => r
  let r := match dictGet ds "PatientBirthDate" with
    | some v => dictSet r "PatientBirthDate" v
    | none => r
  match dictGet ds "PatientSex" with
  | some v => dictSet r "PatientSex" v
  | none => r

/-- `DicomStorage.get_all_patients`: walk patient directories looking for a
readable DICOM file; as soon as one patient record is built, the function
returns (the `return patients` inside the walk), so at most one record is
ever produced. -/
def getAllPatients : List PatientDir → List (List (String × String))
  | [] => []
  | p :: rest =>
    match firstReadableInStudies p.studies with
    | some ds => [mkPatientRecord p.patientId ds]
    | none => getAllPatients rest

/-- The response dataset built per patient record by
`PatientQueryHandler.find_patients`. -/
def buildPatientResponse (info : List (String × String)) : Dataset :=
  let r := [("QueryRetrieveLevel", "PATIENT")]
  let r := dictSet r "PatientName" ((dictGet info "PatientName").getD "")
  let r := dictSet r "PatientID" ((dictGet info "PatientID").getD "")
  let r := match dictGet info "PatientBirthDate" with
    | some v => dictSet r "PatientBirthDate" v
    | none => r
  match dictGet info "PatientSex" with
  | some v => dictSet r "PatientSex" v
  | none => r

/-- `PatientQueryHandler.find_patients` as the list of yielded
`(status, dataset)` pairs; the API catalogue extraction is a collaborator, so
the records it would produce are an input. -/
def findPatients (tree : List PatientDir)
    (apiPatients : List (List (String × String))) (apiConfigured : Bool) :
    List (Nat × Option Dataset) :=
  let patients := getAllPatients tree
  let patients := if patients.isEmpty && apiConfigured then apiPatients else patients
  patients.map (fun info => (0xFF00, some (buildPatientResponse info)))
    ++ [(0x0000, none)]

/-- A store with two patient directories, each holding one readable file. -/
def c7Tree : List PatientDir :=
  [⟨"P1", [⟨"ST1", [⟨"SE1", some [⟨"I1.dcm", some [("PatientName", "sub-001"), ("PatientID", "P1")]⟩]⟩]⟩]⟩,
   ⟨"P2", [⟨"ST2", [⟨"SE2", some [⟨"I2.dcm", some [("PatientName", "sub-002"), ("PatientID", "P2")]⟩]⟩]⟩]⟩]

/-- C7, behaviour at the failing input: with two distinct PatientIDs in the
object store, `get_all_patients` returns a single record (it returns as soon
as the first patient is found), so the PATIENT-level C-FIND streams only one
Pending response instead of one per distinct PatientID; it does still
terminate with Success. -/
theorem C7_single_response_for_two_patients :
    (c7Tree.map PatientDir.patientId = ["P1", "P2"] ∧ ("P1" : String) ≠ "P2") ∧
      (getAllPatients c7Tree).length = 1 ∧
      ((findPatients c7Tree [] true).filter (fun y => decide (y.1 = 0xFF00))).length = 1 ∧
      (findPatients c7Tree [] true).getLast? = some (0x0000, none) := by
  decide

/-! ## Deterministic storage path (`DicomStorage.get_file_path`)

A filesystem path is embedded as its list of segments.  Python's
`str.isalnum` is Unicode-wide, so the embedding abstracts it as a
parameter `isalnum`; every faithful instance coincides with
`Char.isAlphanum` — exactly the class `[A-Za-z0-9]` — on the ASCII range
(`agreesOnAscii`) and may additionally accept non-ASCII alphanumerics.
Statements about the sanitised segment are made for ASCII PatientIDs,
where that agreement fully determines the behaviour.  `str.strip()`
removes leading and trailing Python whitespace, of which only the space
character can survive the preceding filter. -/

def pyIsSpace (c : Char) : Bool :=
  c ∈ [' ', '\t', '\n', '\r', '\x0b', '\x0c']

/-- Python `str.strip()` on a character list. -/
def pyStrip (l : List Char) : List Char :=
  ((l.dropWhile pyIsSpace).reverse.dropWhile pyIsSpace).reverse

/-- The character filter `c.isalnum() or c in "._- "`, with Python's
`str.isalnum` abstracted as the parameter `isalnum`. -/
def keepChar (isalnum : Char → Bool) (c : Char) : Bool :=
  isalnum c || c ∈ ['.', '_', '-', ' ']

/-- The sanitisation performed inside `get_file_path`:
`"".join(c for c in patient_id if c.isalnum() or c in "._- ").strip()`. -/
def sanitizePatientId (isalnum : Char → Bool) (pid : String) : String :=
  ⟨pyStrip (pid.data.filter (keepChar isalnum))⟩

/-- The property every faithful instance of Python's `str.isalnum`
satisfies: on ASCII characters it coincides with `Char.isAlphanum`. -/
def agreesOnAscii (isalnum : Char → Bool) : Prop :=
  ∀ c : Char, c.toNat < 128 → isalnum c = c.isAlphanum

structure StorageState where
  patientStudyMap : List (String × List String)
deriving DecidableEq

/-- `DicomStorage.get_file_path`: derive the patient segment from the
sanitised PatientID (falling back to "unknown"), update the
patient-to-studies map, and return
`<root>/<patient>/<study>/<series>/scans/<sop>.dcm` as segments. -/
def getFilePath (isalnum : Char → Bool)
    (storageDir studyUid seriesUid instanceUid : String)
    (ds : Option Dataset) (st : StorageState) : List String × StorageState :=
  match ds with
  | none =>
    ([storageDir, "unknown", studyUid, seriesUid, "scans", instanceUid ++ ".dcm"], st)
  | some d =>
    match dictGet d "PatientID" with
    | none =>
      ([storageDir, "unknown", studyUid, seriesUid, "scans", instanceUid ++ ".dcm"], st)
    | some pid0 =>
      let pid1 := sanitizePatientId isalnum pid0
      let pid := if pid1 = "" then "unknown" else pid1
      let studies := (dictGet st.patientStudyMap pid).getD []
      let st2 : StorageState :=
        { patientStudyMap :=
            dictSet st.patientStudyMap pid
              (if studyUid ∈ studies then studies else studies ++ [studyUid]) }
      ([storageDir, pid, studyUid, seriesUid, "scans", instanceUid ++ ".dcm"], st2)

theorem sanitizePatientId_eq_on_ascii (isalnum : Char → Bool)
    (hal : agreesOnAscii isalnum) (pid : String)
    (hascii : ∀ c ∈ pid.data, c.toNat < 128) :
    sanitizePatientId isalnum pid = sanitizePatientId Char.isAlphanum pid := by
  unfold sanitizePatientId
  have hfil : pid.data.filter (keepChar isalnum)
      = pid.data.filter (keepChar Char.isAlphanum) :=
    List.filter_congr (fun c hc => by unfold keepChar; rw [hal c (hascii c hc)])
  rw [hfil]

/-- On an all-ASCII PatientID every faithful `isalnum` instance yields the
same path as the ASCII instance, so concrete ASCII computations below pin
down the program's behaviour. -/
theorem getFilePath_ascii_agnostic (isalnum : Char → Bool)
    (hal : agreesOnAscii isalnum)
    (root studyUid seriesUid sopUid : String) (d : Dataset) (st : StorageState)
    (pid : String) (h : dictGet d "PatientID" = some pid)
    (hascii : ∀ c ∈ pid.data, c.toNat < 128) :
    (getFilePath isalnum root studyUid seriesUid sopUid (some d) st).1
      = (getFilePath Char.isAlphanum root studyUid seriesUid sopUid (some d) st).1 := by
  simp only [getFilePath, h]
  rw [sanitizePatientId_eq_on_ascii isalnum hal pid hascii]

/-- The claim's sanitisation, as stated: every character outside
`[A-Za-z0-9._ -]` removed (an ASCII class, so `keepChar Char.isAlphanum` is
this exactly for every input), `"unknown"` when the result is empty — with
no strip step. -/
def claimSanitizePatientId (pid : String) : String :=
  let filtered := pid.data.filter (keepChar Char.isAlphanum)
  if filtered.isEmpty then "unknown" else ⟨filtered⟩

/-- The amended sanitisation for ASCII PatientIDs: filter to the class
`[A-Za-z0-9._ -]`, then strip leading and trailing whitespace (Python
`str.strip()`), then fall back to `"unknown"` when the result is empty. -/
def amendedSanitizePatientId (pid : String) : String :=
  let stripped := pyStrip (pid.data.filter (keepChar Char.isAlphanum))
  if stripped.isEmpty then "unknown" else ⟨stripped⟩

/-- C8 counterexample: for PatientID `"a "` (trailing space) the code strips
the trailing space, so the patient segment is `"a"`, not the `"a "` the
claim's character-class-only description requires; the resulting paths
differ.  The input is all-ASCII, so by `getFilePath_ascii_agnostic` every
faithful `isalnum` instance produces exactly this path. -/
theorem C8_counterexample_trailing_space :
    claimSanitizePatientId "a " = "a " ∧
      (getFilePath Char.isAlphanum "root" "ST" "SE" "I1" (some [("PatientID", "a ")])
          { patientStudyMap := [] }).1
        = ["root", "a", "ST", "SE", "scans", "I1.dcm"] ∧
      (getFilePath Char.isAlphanum "root" "ST" "SE" "I1" (some [("PatientID", "a ")])
          { patientStudyMap := [] }).1
        ≠ ["root", claimSanitizePatientId "a ", "ST", "SE", "scans", "I1.dcm"] := by
  decide

/-- C8 amended, restricted to ASCII PatientIDs (beyond ASCII, Python's
`str.isalnum` additionally keeps Unicode alphanumerics that lie outside the
claim's stated class): for every faithful `isalnum` instance, the patient
path segment equals the PatientID filtered to `[A-Za-z0-9._ -]` and then
stripped of leading/trailing whitespace, with "unknown" substituted when
that result is empty; the returned path is
`<root>/<segment>/<study>/<series>/scans/<sop>.dcm` and is a pure function
of the four inputs, hence identical across process restarts (any
patient-study-map state). -/
theorem C8_path_deterministic (isalnum : Char → Bool)
    (hal : agreesOnAscii isalnum)
    (root studyUid seriesUid sopUid : String)
    (d : Dataset) (st : StorageState) (pid : String)
    (h : dictGet d "PatientID" = some pid)
    (hascii : ∀ c ∈ pid.data, c.toNat < 128) :
    (getFilePath isalnum root studyUid seriesUid sopUid (some d) st).1
        = [root, amendedSanitizePatientId pid, studyUid, seriesUid, "scans",
           sopUid ++ ".dcm"] ∧
      ∀ st2 : StorageState,
        (getFilePath isalnum root studyUid seriesUid sopUid (some d) st).1
          = (getFilePath isalnum root studyUid seriesUid sopUid (some d) st2).1 := by
  have hsan := sanitizePatientId_eq_on_ascii isalnum hal pid hascii
  have hseg : (if sanitizePatientId isalnum pid = "" then "unknown"
        else sanitizePatientId isalnum pid)
      = amendedSanitizePatientId pid := by
    rw [hsan]
    unfold amendedSanitizePatientId sanitizePatientId
    by_cases he : pyStrip (pid.data.filter (keepChar Char.isAlphanum)) = []
    · rw [he]
      simp
    · have h1 : (⟨pyStrip (pid.data.filter (keepChar Char.isAlphanum))⟩ : String) ≠ "" :=
        fun hh => he (by simpa [String.ext_iff] using hh)
      have h2 : ¬ (pyStrip (pid.data.filter (keepChar Char.isAlphanum))).isEmpty = true := by
        simpa using he
      rw [if_neg h1, if_neg h2]
  constructor
  · simp only [getFilePath, h]
    rw [hseg]
  · intro st2
    simp only [getFilePath, h]

/-- Witness for the amended C8 at the ASCII instance and a concrete ASCII
PatientID with a trailing space and an illegal character. -/
theorem C8_path_deterministic_witness :
    (getFilePath Char.isAlphanum "root" "ST" "SE" "I1" (some [("PatientID", "a/b ")])
          { patientStudyMap := [] }).1
        = ["root", amendedSanitizePatientId "a/b ", "ST", "SE", "scans", "I1.dcm"] ∧
      ∀ st2 : StorageState,
        (getFilePath Char.isAlphanum "root" "ST" "SE" "I1" (some [("PatientID", "a/b ")])
            { patientStudyMap := [] }).1
          = (getFilePath Char.isAlphanum "root" "ST" "SE" "I1"
              (some [("PatientID", "a/b ")]) st2).1 :=
  C8_path_deterministic Char.isAlphanum (fun _ _ => rfl) "root" "ST" "SE" "I1"
    [("PatientID", "a/b ")] { patientStudyMap := [] } "a/b " (by decide) (by decide)

/-! ## C-STORE path (`DicomServiceProvider._handle_store` in
`dicom_receiver/core/scp.py`)

The SCP registers `self._handle_store` on `EVT_C_STORE` (scp.py); it
touches the study monitor, computes the deterministic path from the
pre-anonymisation dataset, anonymises the dataset in place, and saves it at
that path.  `save_as` is embedded as a write into a path-indexed map. -/

structure ReceiverState where
  storageDir : String
  monitor : MonitorState
  storage : StorageState
  anonymizer : AnonymizerState
  files : List (List String × Dataset)
deriving DecidableEq

/-- `DicomServiceProvider._handle_store` at wall-clock instant `now`;
returns the DICOM status 0x0000 on success.  `none` embeds the
`AttributeError` raised when a required UID is missing.  The path
computation uses the ASCII `isalnum` instance; the E1 scenario below feeds
only ASCII PatientIDs, where every faithful instance agrees with it
(`getFilePath_ascii_agnostic`). -/
def handleStore (now : ℚ) (st : ReceiverState) (ds : Dataset) :
    Option (ReceiverState × Nat) :=
  match dictGet ds "StudyInstanceUID", dictGet ds "SeriesInstanceUID",
      dictGet ds "SOPInstanceUID" with
  | some studyUid, some seriesUid, some instanceUid =>
    let mon := updateStudyActivity now studyUid st.monitor
    let fp := getFilePath Char.isAlphanum st.storageDir studyUid seriesUid instanceUid
      (some ds) st.storage
    match anonymizeDataset st.anonymizer ds with
    | none => none
    | some r =>
      let st2 : ReceiverState :=
        { st with
            monitor := mon
            storage := fp.2
            anonymizer := r.2.1
            files := dictSet st.files fp.1 r.1 }
      some (st2, 0x0000)
  | _, _, _ => none

/-- A sequence of C-STORE requests at increasing instants. -/
def runStores (st : ReceiverState) : List (ℚ × Dataset) → Option ReceiverState
  | [] => some st
  | (now, ds) :: rest =>
    match handleStore now st ds with
    | some r => runStores r.1 rest
    | none => none

def e1InitState : ReceiverState :=
  { storageDir := "root", monitor := { studyLastActivity := [], activeStudies := [] },
    storage := { patientStudyMap := [] }, anonymizer := initAnonymizerState, files := [] }

def e1Ds1 : Dataset :=
  [("StudyInstanceUID", "ST1"), ("SeriesInstanceUID", "SE1"), ("SOPInstanceUID", "I1"),
   ("PatientName", "DOE^JOHN"), ("PatientID", "PID1")]

def e1Ds2 : Dataset :=
  [("StudyInstanceUID", "ST1"), ("SeriesInstanceUID", "SE1"), ("SOPInstanceUID", "I2"),
   ("PatientName", "DOE^JOHN"), ("PatientID", "PID1")]

def e1Ds3 : Dataset :=
  [("StudyInstanceUID", "ST2"), ("SeriesInstanceUID", "SE2"), ("SOPInstanceUID", "I3"),
   ("PatientName", "DOE^JOHN"), ("PatientID", "PID1")]

def e1Ds4 : Dataset :=
  [("StudyInstanceUID", "ST3"), ("SeriesInstanceUID", "SE3"), ("SOPInstanceUID", "I4"),
   ("PatientName", "ROE^JANE"), ("PatientID", "PID2")]

/-- C9: after the E1 sequence (empty identity store; three instances with
PatientName "DOE^JOHN" across two studies, then one with "ROE^JANE"), the
file for the last instance is persisted at the deterministic path
`root/PID2/ST3/SE3/scans/I4.dcm` and its dataset PatientName is exactly
"sub-002"; the name map holds DOE^JOHN ↦ sub-001 and ROE^JANE ↦ sub-002 and
the counter is 3. -/
theorem C9_e1_last_file_patient_name :
    ∃ fin : ReceiverState,
      runStores e1InitState [(0, e1Ds1), (1, e1Ds2), (2, e1Ds3), (3, e1Ds4)] = some fin ∧
      ∃ saved : Dataset,
        dictGet fin.files ["root", "PID2", "ST3", "SE3", "scans", "I4.dcm"] = some saved ∧
        dictGet saved "PatientName" = some "sub-002" ∧
        dictGet fin.anonymizer.patientNameMap "DOE^JOHN" = some "sub-001" ∧
        dictGet fin.anonymizer.patientNameMap "ROE^JANE" = some "sub-002" ∧
        fin.anonymizer.patientCounter = 3 := by
  refine ⟨_, rfl, _, rfl, ?_, ?_, ?_, ?_⟩ <;> decide

/-- The patient-name reformatting inside
`StoreHandler._fix_dicom_file_metadata` (`handlers/store_handler.py`): a
PatientName starting with `sub-` and containing no caret is rewritten to
`<name>^`.  This `StoreHandler` class is exported but never instantiated;
the SCP wires its own `_handle_store`, which performs no such rewrite. -/
def fixPatientNameFormat (ds : Dataset) : Dataset :=
  match dictGet ds "PatientName" with
  | some pn =>
    if pn.data.take 4 == ['s', 'u', 'b', '-'] && ! pn.data.contains '^' then
      dictSet ds "PatientName" ⟨pn.data ++ ['^']⟩
    else ds
  | none => ds

/-- Had the dead `StoreHandler` path been wired in, the persisted name for
the E1 scenario would have been "sub-002^" rather than "sub-002". -/
theorem fixPatientNameFormat_appends_caret :
    dictGet (fixPatientNameFormat [("PatientName", "sub-002")]) "PatientName"
      = some "sub-002^" := by
  decide
